import Mathlib

/-!
Formal model of the incremental causal-convolution engine and the
autoregressive decoding loop of src/nn/wavenet.py (class Conv and class
Wavenet).

Modelling conventions, used throughout:
* Tensor values are exact rationals.  The reference computes with IEEE
  floats; claims about numerical equivalence within floating-point
  tolerance are settled here as exact equality of the rational-valued
  computation, which is the float computation with rounding removed.
* The batch dimension of the reference tensors is not modelled: every
  modelled operation of the reference acts identically and independently
  on each batch element.
* A signal is a time-major list of frames, one frame per timestep; a
  frame is one rational per channel.  This is the reference's
  (channels, time) tensor read column by column.
* torch.nn.functional.tanh and torch.nn.functional.sigmoid are
  transcendental and are taken as parameters (the Externals record
  below), as are the external collaborators that the spec declares out
  of scope (the sampler and the mu-law codec, which live in modules that
  are not part of this repository's core source).  torch.nn.Softsign is
  x / (1 + |x|), exact on rationals, and is defined directly.
* Python code that raises is modelled with Except PyError; a Python
  function that falls through without executing any return statement
  (and therefore returns the value None without raising) is modelled
  with Option in the returned value.
* Out-of-range tensor indexing inside loops whose bounds make it
  unreachable in the reference is modelled with List.getD.
-/

/-- One timestep of a signal: one rational value per channel. -/
abbrev Frame := List ℚ

/-- Frame of n zero channels; models a zero column of a torch tensor. -/
def zeroFrame (n : ℕ) : Frame :=
  List.replicate n 0

/-- Dot product of two equally long lists of rationals. -/
def dotQ (u v : List ℚ) : ℚ :=
  (List.zipWith (fun a b => a * b) u v).sum

/-- Channel c of a window of frames, listed tap by tap. -/
def chanAt (win : List Frame) (c : ℕ) : List ℚ :=
  win.map (fun f => f.getD c 0)

/-- One output frame of torch.nn.functional.conv1d: the weight has torch
layout out_channels x in_channels x kernel_size, the window holds the
kernel_size input frames the taps read, and a missing bias (bias=False,
conv.bias is None) contributes nothing. -/
def convFrame (weight : List (List (List ℚ))) (bias : Option (List ℚ))
    (win : List Frame) : Frame :=
  (List.range weight.length).map (fun o =>
    let wo := weight.getD o []
    (match bias with
     | some b => b.getD o 0
     | none => 0) +
      ((List.range wo.length).map (fun c => dotQ (wo.getD c []) (chanAt win c))).sum)

/-- Window of kernel_size frames read by the convolution at output
position t: input positions t, t + d, ..., t + (k-1)d (stride 1). -/
def convWindow (xs : List Frame) (k d chin t : ℕ) : List Frame :=
  (List.range k).map (fun j => xs.getD (t + j * d) (zeroFrame chin))

/-- Full-sequence torch.nn.functional.conv1d with stride 1 (every Conv in
the reference is constructed with the default stride of 1): output length
is the input length minus the dilated kernel span. -/
def conv1dSeq (weight : List (List (List ℚ))) (bias : Option (List ℚ))
    (k d chin : ℕ) (xs : List Frame) : List Frame :=
  (List.range (xs.length - (k - 1) * d)).map
    (fun t => convFrame weight bias (convWindow xs k d chin t))

/-- Softsign activation of torch.nn.Softsign, recommended by DeepVoice3. -/
def softsign (q : ℚ) : ℚ :=
  q / (1 + |q|)

/-- ReLU, torch.nn.functional.relu. -/
def reluQ (q : ℚ) : ℚ :=
  max q 0

/-- State and configuration of one Conv module (wavenet.py lines 50-78).
The fields mirror the attributes the methods read: the causal flag, kernel
size, input channel count, dilation, the Conv1d weight and optional bias,
the optional Softsign activation flag, and the lazily created streaming
history cache input_memory (None until the first streaming call).  The
cache is a collections.deque of frames, modelled as a list whose head is
the deque's left end. -/
structure Conv where
  is_causal : Bool
  kernel_size : ℕ
  in_channels : ℕ
  dilation : ℕ
  weight : List (List (List ℚ))
  bias : Option (List ℚ)
  use_act : Bool
  input_memory : Option (List Frame)
  deriving DecidableEq, Repr

/-- Batch-mode Conv.forward (lines 80-87): left-pad with
(kernel_size - 1) * dilation zero frames when causal, convolve, then
apply the optional Softsign activation. -/
def Conv.forward (c : Conv) (xs : List Frame) : List Frame :=
  let padded :=
    if c.is_causal then
      List.replicate ((c.kernel_size - 1) * c.dilation) (zeroFrame c.in_channels) ++ xs
    else xs
  let out := conv1dSeq c.weight c.bias c.kernel_size c.dilation c.in_channels padded
  if c.use_act then out.map (fun f => f.map softsign) else out

/-- Conv.init_input_memory (lines 126-133): a fresh deque filled with
dilation zero frames of in_channels channels. -/
def Conv.init_input_memory (c : Conv) : List Frame :=
  List.replicate c.dilation (zeroFrame c.in_channels)

/-- Streaming Conv.infer_step (lines 89-124) on a single input frame.
With kernel_size 1 it returns the plain convolution of the frame and
touches no state (and applies no activation: it calls self.conv, not
forward).  With a causal kernel it lazily initializes the cache, pushes
the frame on the left of the deque, pops the oldest frame off the right,
and returns the 2-tap convolution of (oldest, current) - again without
the optional activation.  With kernel_size > 1 and non-causal the Python
function body reaches no return statement: it returns None and leaves the
module untouched. -/
def Conv.infer_step (c : Conv) (x : Frame) : Option Frame × Conv :=
  if c.kernel_size = 1 then
    (some (convFrame c.weight c.bias [x]), c)
  else if c.is_causal then
    let mem := c.input_memory.getD c.init_input_memory
    let mem1 := x :: mem
    let x0 := mem1.getLastD (zeroFrame c.in_channels)
    (some (convFrame c.weight c.bias [x0, x]),
      { c with input_memory := some mem1.dropLast })
  else
    (none, c)

/-- Cons of an optional frame onto an optional output list: None as soon
as either is missing. -/
def combineOut : Option Frame → Option (List Frame) → Option (List Frame)
  | some y, some ys => some (y :: ys)
  | _, _ => none

/-- Sequential driver for the streaming mode: one infer_step call per
timestep in order, threading the module state and collecting the single
frame outputs; the collected output is None as soon as one step returns
None. -/
def Conv.inferRun (c : Conv) (xs : List Frame) : Option (List Frame) × Conv :=
  match xs with
  | [] => (some [], c)
  | x :: rest =>
    let s1 := c.infer_step x
    let s2 := Conv.inferRun s1.2 rest
    (combineOut s1.1 s2.1, s2.2)

/-- Deque evolution of one causal kernel-2 streaming step: push the new
frame on the left, pop the oldest frame off the right. -/
def pushMem (m : List Frame) (x : Frame) : List Frame :=
  (x :: m).dropLast

/-- Concrete causal kernel-2 layer used to instantiate theorems:
1 input channel, 1 output channel, dilation 2, weight taps 1 and 2,
bias 3, fresh cache. -/
def convK2Ex : Conv :=
  { is_causal := true
    kernel_size := 2
    in_channels := 1
    dilation := 2
    weight := [[[1, 2]]]
    bias := some [3]
    use_act := false
    input_memory := none }

/-- Concrete causal kernel-1 layer with the Softsign activation enabled:
identity weight, no bias, fresh cache. -/
def convActEx : Conv :=
  { is_causal := true
    kernel_size := 1
    in_channels := 1
    dilation := 1
    weight := [[[1]]]
    bias := none
    use_act := true
    input_memory := none }

/-- Concrete non-causal kernel-2 layer: the configuration the streaming
step does not support. -/
def convNCEx : Conv :=
  { is_causal := false
    kernel_size := 2
    in_channels := 1
    dilation := 1
    weight := [[[1, 1]]]
    bias := none
    use_act := false
    input_memory := none }

/-- Concrete three-frame input signal on one channel. -/
def xsEx : List Frame :=
  [[1], [10], [100]]

/-- Default Conv record used when modelling Python list indexing with
List.getD; a kernel-1 non-causal do-nothing layer.  The reference loops
never index a layer list out of range, so the default is unreachable in
every modelled configuration. -/
def defConv : Conv :=
  { is_causal := false
    kernel_size := 1
    in_channels := 0
    dilation := 1
    weight := []
    bias := none
    use_act := false
    input_memory := none }

/-- Dilated convolution layers built by the Wavenet constructor (lines
247-255): loop_factor = floor(log2(max_dilation)) + 1, and block i gets
a causal kernel-2 convolution with dilation 2^(i mod loop_factor),
operating on n_residual_channels input channels with 2*n_residual_channels
outputs.  Python computes the floor of the float math.log2; on natural
max_dilation >= 1 in the practical range that is Nat.log2 (exact whenever
max_dilation is a power of two, as in every shipped configuration).  The
weight and optional bias of each block come from the external xavier
initializer and are taken here as functions of the block index. -/
def mkDilateLayers (n_layers max_dilation n_residual_channels : ℕ)
    (wInit : ℕ → List (List (List ℚ))) (bInit : ℕ → Option (List ℚ)) :
    List Conv :=
  let loop_factor := Nat.log2 max_dilation + 1
  (List.range n_layers).map (fun i =>
    { is_causal := true
      kernel_size := 2
      in_channels := n_residual_channels
      dilation := 2 ^ (i % loop_factor)
      weight := wInit i
      bias := bInit i
      use_act := false
      input_memory := none })

/-- Python exceptions raised (or latent) on the modelled paths. -/
inductive PyError where
  | assertionError
  | typeError
  | nameError
  | indexError
  deriving DecidableEq, Repr

/-- Frame-wise addition: torch element-wise + on matching shapes. -/
def frameAdd (u v : Frame) : Frame :=
  List.zipWith (fun a b => a + b) u v

/-- Frame-wise multiplication: torch element-wise * on matching shapes. -/
def frameMul (u v : Frame) : Frame :=
  List.zipWith (fun a b => a * b) u v

/-- External capabilities of the engine, out of the core's scope per the
spec: the transcendental gate nonlinearities of torch (tanh, sigmoid),
the mu-law codec of the utils module, and the next-sample Sampler
(SampleDiscretizedMixLogistics or utils.CategoricalSampler, both
external classes; the claims stipulate a deterministic sampler, hence a
plain function of the logits frame). -/
structure Externals where
  tanh : ℚ → ℚ
  sigmoid : ℚ → ℚ
  mu_law_encode : ℚ → ℤ
  mu_law_decode : ℤ → ℕ → ℚ
  sampler : Frame → ℤ

/-- Input layer of the Wavenet (lines 230-237): a QuantizedInputLayer
(torch Embedding table with one row per quantized class and an optional
Softsign, lines 156-173) when onehot_input, otherwise a kernel-1 Conv. -/
inductive InLayer where
  | quantized (table : List Frame) (use_act : Bool)
  | conv (c : Conv)

/-- Batch audio input: quantized class indices when the input layer is an
embedding (onehot_input=True), raw frames when it is a convolution. -/
inductive AudioInput where
  | classes (xs : List ℤ)
  | frames (xs : List Frame)

/-- Number of timesteps of a batch audio input (size(-1)). -/
def AudioInput.len : AudioInput → ℕ
  | .classes xs => xs.length
  | .frames xs => xs.length

/-- Embedding row lookup of QuantizedInputLayer; a negative or
out-of-range class index would raise in torch and is modelled with
List.getD over the clamped natural index. -/
def embedLookup (table : List Frame) (n : ℤ) : Frame :=
  table.getD n.toNat []

/-- Conv module called on a single-timestep tensor, as the kernel-1
layers are called inside the streaming loop; the output holds exactly
one frame. -/
def Conv.forward1 (c : Conv) (f : Frame) : Frame :=
  (c.forward [f]).getD 0 []

/-- Input layer applied to one sample inside the streaming loop (line
370): embedding lookup plus optional Softsign for the quantized layer;
for a Conv input layer the scalar sample becomes a one-channel frame. -/
def InLayer.applyStep : InLayer → ℤ → Frame
  | .quantized table ua, n =>
      if ua then (embedLookup table n).map softsign else embedLookup table n
  | .conv c, n => c.forward1 [(n : ℚ)]

/-- Input layer applied to a whole batch input (line 292): None models
the type error Python would raise when the input kind does not match the
configured layer. -/
def InLayer.applySeq : InLayer → AudioInput → Option (List Frame)
  | .quantized table ua, .classes xs =>
      some (xs.map (fun n =>
        if ua then (embedLookup table n).map softsign else embedLookup table n))
  | .conv c, .frames xs => some (c.forward xs)
  | _, _ => none

/-- Configuration, parameters and streaming state of the Wavenet module
(constructor lines 176-268), restricted to the fields its modelled
methods read.  upsample is the external conditioning-upsampler
capability (UpsampleByRepetition or ConvTranspose1d, chosen at
construction); res_block_gain is the fixed architectural rescale applied
after every block. -/
structure Wavenet where
  n_layers : ℕ
  n_residual_channels : ℕ
  n_out_channels : ℕ
  upscale : ℕ
  use_conditioning : Bool
  same_cond_each_resblock : Bool
  use_cond_conv : Bool
  use_skip_out : Bool
  use_res_out_conv : Bool
  res_block_gain : ℚ
  upsample : List Frame → List Frame
  cond_layers : Conv
  in_layer : InLayer
  dilate_layers : List Conv
  res_layers : List Conv
  skip_layers : List Conv
  conv_out : Conv
  conv_end : Conv

/-- Channel slice of per-layer conditioning: the reference's
view(B, n_layers, chunk, T) of a (B, C, T) tensor groups the channel
axis into n_layers blocks of chunk channels, so indexing block i reads
channels i*chunk .. (i+1)*chunk - 1 of each timestep frame. -/
def condChunk (chunk i : ℕ) (f : Frame) : Frame :=
  (f.drop (i * chunk)).take chunk

/-- Gated activation unit on one timestep frame (lines 310-312 and
387-389): tanh of the first n_residual_channels channels times sigmoid
of the remaining channels. -/
def gateFrame (E : Externals) (R : ℕ) (f : Frame) : Frame :=
  frameMul ((f.take R).map E.tanh) ((f.drop R).map E.sigmoid)

/-- Conditioning addition of one batch-mode block (lines 303-308): add
the whole conditioning when same_cond_each_resblock, otherwise this
block's channel slice of the viewed layout. -/
def blockCondAdd (w : Wavenet) (cond : Option (List Frame)) (i : ℕ)
    (in_act0 : List Frame) : List Frame :=
  match cond with
  | some cf =>
      let cfi := if w.same_cond_each_resblock then cf
        else cf.map (condChunk ((cf.headD []).length / w.n_layers) i)
      List.zipWith frameAdd in_act0 cfi
  | none => in_act0

/-- Skip accumulation of one batch-mode block (lines 316-320): the first
block starts the running sum, every later block adds to it. -/
def blockSkip (w : Wavenet) (i : ℕ) (acts : List Frame)
    (skip : Option (List Frame)) : Option (List Frame) :=
  if w.use_skip_out then
    some (match skip with
          | none => (w.skip_layers.getD i defConv).forward acts
          | some o =>
              List.zipWith frameAdd ((w.skip_layers.getD i defConv).forward acts) o)
  else skip

/-- Optional residual projection of one batch-mode block (lines
322-323): applied while res_layers has a layer for this block (one fewer
than the block count). -/
def blockRes (w : Wavenet) (i : ℕ) (acts : List Frame) : List Frame :=
  if w.use_res_out_conv = true ∧ i < w.res_layers.length then
    (w.res_layers.getD i defConv).forward acts
  else acts

/-- One batch-mode residual block (loop body lines 297-326 with
training=False, so the stochastic dropout branches are skipped): dilated
convolution, conditioning addition, gated activation, skip accumulation,
optional residual projection, residual addition, and the res_block_gain
rescale. -/
def resBlockBatch (E : Externals) (w : Wavenet) (cond : Option (List Frame))
    (st : List Frame × Option (List Frame)) (i : ℕ) :
    List Frame × Option (List Frame) :=
  let in_act0 := (w.dilate_layers.getD i defConv).forward st.1
  let acts := (blockCondAdd w cond i in_act0).map (gateFrame E w.n_residual_channels)
  let fwd2 := (List.zipWith frameAdd (blockRes w i acts) st.1).map
    (fun f => f.map (fun q => q * w.res_block_gain))
  (fwd2, blockSkip w i acts st.2)

/-- Conditioning preparation of batch forward (lines 276-288): upsample
unless upscale is 1, assert the conditioning covers the input, truncate
to the input length, optionally project through cond_layers; the
per-block view reshape of line 288 is realized lazily by condChunk
inside each block. -/
def prepCond (w : Wavenet) (features : Option (List Frame)) (L : ℕ) :
    Except PyError (Option (List Frame)) :=
  if w.use_conditioning then
    match features with
    | none => .error .typeError
    | some f =>
      let cond0 := if w.upscale ≠ 1 then w.upsample f else f
      if cond0.length < L then .error .assertionError
      else
        let cond1 := cond0.take L
        let cond2 := if w.use_cond_conv then w.cond_layers.forward cond1 else cond1
        .ok (some cond2)
  else .ok none

/-- Output selection after the batch residual loop (lines 329-345): with
use_skip_out the skip sum goes through the two-stage ReLU/conv head (no
dropout with training=False), otherwise the residual stream is the
output.  A missing skip sum (possible only with zero blocks) leaves the
Python name output unbound, a NameError. -/
def headOut (E : Externals) (w : Wavenet)
    (res : List Frame × Option (List Frame)) : Except PyError (List Frame) :=
  if w.use_skip_out then
    match res.2 with
    | none => .error .nameError
    | some sk =>
      let o1 := sk.map (fun f => f.map reluQ)
      let o2 := w.conv_out.forward o1
      let o3 := o2.map (fun f => f.map reluQ)
      .ok (w.conv_end.forward o3)
  else .ok res.1

/-- Final causal shift of batch forward (lines 347-354): discard the
last timestep's output and prepend last * 0.0; indexing [-1] of an empty
time axis raises. -/
def shiftOut (out : List Frame) : Except PyError (List Frame) :=
  if out.length = 0 then .error .indexError
  else .ok (((out.getLastD []).map (fun q => q * 0)) :: out.dropLast)

/-- Batch-mode Wavenet.forward (lines 271-358) with training=False (the
dropout modules are training-time only and stochastic; they never run on
the modelled path): conditioning preparation, input layer, the
residual-block loop, output head, and the final causal shift. -/
def Wavenet.forward (E : Externals) (w : Wavenet)
    (features : Option (List Frame)) (input : AudioInput) :
    Except PyError (List Frame) :=
  match prepCond w features input.len with
  | .error e => .error e
  | .ok cond =>
    match w.in_layer.applySeq input with
    | none => .error .typeError
    | some fwd0 =>
      match headOut E w
          ((List.range w.n_layers).foldl (resBlockBatch E w cond) (fwd0, none)) with
      | .error e => .error e
      | .ok out => shiftOut out

/-- One streaming residual block (loop body lines 376-401): the dilated
layer's infer_step on this timestep's frame (updating block i's cache in
the dls list), conditioning addition (per the source the per-block slice
is taken when use_cond_conv and the whole conditioning frame otherwise),
gated activation, skip accumulation, optional residual projection,
residual addition and gain rescale.  A None from the dilated layer
(possible only for unsupported non-causal kernel>1 blocks) would make
the following addition raise in Python; modelled as a TypeError. -/
def resBlockStep (E : Externals) (w : Wavenet) (cond : Option Frame)
    (st : Frame × Option Frame × List Conv) (i : ℕ) :
    Except PyError (Frame × Option Frame × List Conv) :=
  let fwd := st.1
  let skip := st.2.1
  let dls := st.2.2
  let stepRes := (dls.getD i defConv).infer_step fwd
  match stepRes.1 with
  | none => .error .typeError
  | some in_act0 =>
    let in_act :=
      match cond with
      | some cf =>
          frameAdd in_act0
            (if w.use_cond_conv then condChunk (2 * w.n_residual_channels) i cf
             else cf)
      | none => in_act0
    let acts := gateFrame E w.n_residual_channels in_act
    let skip2 :=
      if w.use_skip_out then
        some (match skip with
              | none => (w.skip_layers.getD i defConv).forward1 acts
              | some o => frameAdd ((w.skip_layers.getD i defConv).forward1 acts) o)
      else skip
    let acts2 :=
      if w.use_res_out_conv = true ∧ i < w.res_layers.length then
        (w.res_layers.getD i defConv).forward1 acts
      else acts
    let fwd2 := (frameAdd acts2 fwd).map (fun q => q * w.res_block_gain)
    .ok (fwd2, skip2, dls.set i stepRes.2)

/-- Streaming Wavenet.infer_step (lines 361-411): embed the sample
through the input layer, run every residual block in streaming mode,
then feed the skip sum through the ReLU/conv output head (no dropout on
this path); returns the output frame and the module with its updated
dilated-layer caches.  With use_skip_out and zero blocks the Python
name output is unbound at line 404 (NameError). -/
def Wavenet.infer_step (E : Externals) (w : Wavenet) (cond : Option Frame)
    (sample : ℤ) : Except PyError (Frame × Wavenet) :=
  let fwd0 := w.in_layer.applyStep sample
  match (List.range w.n_layers).foldlM (resBlockStep E w cond)
      (fwd0, none, w.dilate_layers) with
  | .error e => .error e
  | .ok res =>
    let w2 := { w with dilate_layers := res.2.2 }
    if w.use_skip_out then
      match res.2.1 with
      | none => .error .nameError
      | some sk =>
        let o1 := sk.map reluQ
        let o2 := w.conv_out.forward1 o1
        let o3 := o2.map reluQ
        .ok (w.conv_end.forward1 o3, w2)
    else .ok (res.1, w2)

/-- Arguments of Wavenet.inference kept by the model: conditioning
features (None for unconditional generation), one row of teacher audio,
the quantization size, the random-substitution options, and the explicit
shape parameters used when conditioning is omitted. -/
structure InferArgs where
  cond_features : Option (List Frame)
  teacher_audio : Option (List ℤ)
  mu_quantization : ℕ
  randomize_input : Bool
  rand_sample_chance : ℚ
  length : ℕ
  audio_hz : ℕ
  batch_size : ℕ
  cond_channels : ℕ

/-- State of the inference loop: the threaded module (whose
dilated-layer caches evolve), the target length, the prepared
conditioning, the logits buffer (length frames of n_out_channels), the
quantized output-audio buffer (length+1 entries, initialized to the
mu-law code of silence), and inputs_fed, a trace recording the
forward_sample value fed to the streaming step at each loop iteration
(pure instrumentation used only to state theorems). -/
structure InfState where
  net : Wavenet
  len : ℕ
  cond : Option (List Frame)
  logits : List Frame
  output_audio : List ℤ
  inputs_fed : List ℤ

/-- INIT phase of Wavenet.inference (lines 429-455): with conditioning
enabled, assert that conditioning or an explicit positive length is
supplied; derive the target length and upsample when features are given;
otherwise assert batch_size and cond_channels are positive and
synthesize an all-zero conditioning tensor; optionally project through
cond_layers.  The view reshape of line 452 is realized by condChunk at
use.  Without conditioning the target length is length * audio_hz. -/
def inferenceInit (w : Wavenet) (a : InferArgs) :
    Except PyError (ℕ × Option (List Frame)) :=
  if w.use_conditioning then
    if a.cond_features.isSome ∨ 0 < a.length then
      match a.cond_features with
      | some cf =>
        let len := cf.length * w.upscale
        let cf2 := if w.upscale ≠ 1 then w.upsample cf else cf
        let cf3 := if w.use_cond_conv then w.cond_layers.forward cf2 else cf2
        .ok (len, some cf3)
      | none =>
        if 0 < a.batch_size ∧ 0 < a.cond_channels then
          let cf := List.replicate a.length (zeroFrame a.cond_channels)
          let cf3 := if w.use_cond_conv then w.cond_layers.forward cf else cf
          .ok (a.length, some cf3)
        else .error .assertionError
    else .error .assertionError
  else .ok (a.length * a.audio_hz, none)

/-- Conditioning slice for loop iteration s (lines 483-489; None when
conditioning is disabled).  With use_cond_conv the reference indexes the
viewed 4-D tensor as cond_features[:, :, :, s], valid only in the
not-same_cond layout (with same_cond_each_resblock the tensor is 3-D and
the 4-D index raises IndexError); without use_cond_conv it takes
cond_features[:, :, s], which in the not-same_cond case indexes the
viewed 4-D tensor along the wrong axis - a shape/broadcast failure for
the shipped configurations, modelled as a TypeError.  Indexing past the
time length raises IndexError as in torch. -/
def condSampleAt (w : Wavenet) (cond : Option (List Frame)) (s : ℕ) :
    Except PyError (Option Frame) :=
  if w.use_conditioning then
    match cond with
    | none => .error .typeError
    | some cf =>
      if w.use_cond_conv then
        if w.same_cond_each_resblock then .error .indexError
        else
          match cf[s]? with
          | some f => .ok (some f)
          | none => .error .indexError
      else
        if w.same_cond_each_resblock then
          match cf[s]? with
          | some f => .ok (some f)
          | none => .error .indexError
        else .error .typeError
  else .ok none

/-- Input-sample selection with the substitution guard (lines 491-500).
Line 492 evaluates randomize_input and (random.uniform <
rand_sample_chance): the Python and short-circuits, and the comparison
compares the function object random.uniform itself with the float
rand_sample_chance, which raises TypeError in Python 3 whenever it is
evaluated - that is, whenever randomize_input is true.  The intended
substitution branch (torch.randint_like, lines 493-494) is therefore
unreachable; it is kept here, fed by the oracle rnd, so that theorems
can state independence from the randomness source.  Otherwise the sample
comes from the teacher buffer while it lasts and from the output-audio
buffer (the previously generated sample) afterwards. -/
def pickForwardSample (a : InferArgs) (teacher : List ℤ) (audio : List ℤ)
    (rnd : ℕ → ℤ) (s : ℕ) : Except PyError ℤ :=
  match (if a.randomize_input then Except.error PyError.typeError
         else Except.ok false : Except PyError Bool) with
  | .error e => .error e
  | .ok true => .ok (rnd s)
  | .ok false =>
    if s < teacher.length then .ok (teacher.getD s 0)
    else .ok (audio.getD s 0)

/-- One iteration of the inference loop (lines 477-504): fetch the
conditioning slice, select the input sample, run one streaming step,
then store the logits at s+1 and the sampler's draw from those logits at
s+1 of the output-audio buffer. -/
def inferenceStep (E : Externals) (a : InferArgs) (teacher : List ℤ)
    (rnd : ℕ → ℤ) (st : InfState) (s : ℕ) : Except PyError InfState :=
  match condSampleAt st.net st.cond s with
  | .error e => .error e
  | .ok condSample =>
    match pickForwardSample a teacher st.output_audio rnd s with
    | .error e => .error e
    | .ok fs =>
      match Wavenet.infer_step E st.net condSample fs with
      | .error e => .error e
      | .ok res =>
        .ok { st with
          net := res.2
          logits := st.logits.set (s + 1) res.1
          output_audio := st.output_audio.set (s + 1) (E.sampler res.1)
          inputs_fed := st.inputs_fed ++ [fs] }

/-- Full Wavenet.inference (lines 414-513) up to the final decode: INIT,
buffer allocation (logits of n_out_channels x length zeros, output audio
of length+1 mu-law-encoded zeros), then length-1 loop iterations. -/
def inferenceRun (E : Externals) (w : Wavenet) (a : InferArgs)
    (rnd : ℕ → ℤ) : Except PyError InfState :=
  match inferenceInit w a with
  | .error e => .error e
  | .ok res =>
    let st0 : InfState :=
      { net := w
        len := res.1
        cond := res.2
        logits := List.replicate res.1 (zeroFrame w.n_out_channels)
        output_audio := List.replicate (res.1 + 1) (E.mu_law_encode 0)
        inputs_fed := [] }
    (List.range (res.1 - 1)).foldlM
      (inferenceStep E a (a.teacher_audio.getD []) rnd) st0

/-- Return value of Wavenet.inference (line 513): the mu-law decode of
the whole generated buffer. -/
def inferenceAudio (E : Externals) (w : Wavenet) (a : InferArgs)
    (rnd : ℕ → ℤ) : Except PyError (List ℚ) :=
  match inferenceRun E w a rnd with
  | .error e => .error e
  | .ok st =>
      .ok (st.output_audio.map (fun z => E.mu_law_decode z a.mu_quantization))

/-- Padded input sequence of Conv.forward: the left zero padding of the
causal branch, nothing otherwise. -/
def paddedOf (c : Conv) (xs : List Frame) : List Frame :=
  if c.is_causal then
    List.replicate ((c.kernel_size - 1) * c.dilation) (zeroFrame c.in_channels) ++ xs
  else xs

/-- Sequences that agree on every index strictly below t and have the
same length: the formal meaning of "differ only at indices at or after
t". -/
def AgreeUpTo (t : ℕ) (xs ys : List Frame) : Prop :=
  xs.length = ys.length ∧ ∀ i, i < t → xs[i]? = ys[i]?

/-- Audio inputs of the same kind that agree strictly below t. -/
def AudioAgreeUpTo (t : ℕ) : AudioInput → AudioInput → Prop
  | .classes xs, .classes ys => xs.length = ys.length ∧ ∀ i, i < t → xs[i]? = ys[i]?
  | .frames xs, .frames ys => AgreeUpTo t xs ys
  | _, _ => False

/-- Optional skip accumulators that agree strictly below t. -/
def OptAgree (t : ℕ) : Option (List Frame) → Option (List Frame) → Prop
  | none, none => True
  | some a, some b => AgreeUpTo t a b
  | _, _ => False

/-- Fallible results that agree strictly below t: equal errors, or
successes agreeing below t. -/
def ExceptAgree (t : ℕ) :
    Except PyError (List Frame) → Except PyError (List Frame) → Prop
  | .error e, .error e2 => e = e2
  | .ok a, .ok b => AgreeUpTo t a b
  | _, _ => False

/-- Convolution whose batch output at time t reads inputs only at times
at or before t: kernel 1 (pointwise) or causal (left padding). -/
def Conv.causalSafe (c : Conv) : Prop :=
  c.kernel_size = 1 ∨ c.is_causal = true

/-- Causal safety of every convolution the batch forward pass can touch:
the constructor makes the dilated layers causal and the remaining layers
kernel-1. -/
def Wavenet.causalSafe (w : Wavenet) : Prop :=
  (∀ c ∈ w.dilate_layers, c.causalSafe) ∧
  (∀ c ∈ w.skip_layers, c.causalSafe) ∧
  (∀ c ∈ w.res_layers, c.causalSafe) ∧
  w.conv_out.causalSafe ∧ w.conv_end.causalSafe ∧
  (match w.in_layer with
   | .conv c => c.causalSafe
   | .quantized _ _ => True)

/-- Streaming well-formedness of the dilated layers: a layer works in
infer_step exactly when it is kernel-1 or causal kernel-2, which is what
the constructor builds. -/
def DilOK (c : Conv) : Prop :=
  c.kernel_size = 1 ∨ (c.kernel_size = 2 ∧ c.is_causal = true)

/-- Streaming well-formedness of a Wavenet: every dilated layer streams,
and the skip head is only used with at least one block (otherwise the
Python name output is unbound at line 404). -/
def Wavenet.streamSafe (w : Wavenet) : Prop :=
  (∀ c ∈ w.dilate_layers, DilOK c) ∧
  (w.use_skip_out = true → 1 ≤ w.n_layers)

/-- Concrete externals used to instantiate theorems: identity gate
nonlinearities, a constant start-symbol mu-law codec, and a constant
sampler. -/
def EId : Externals :=
  { tanh := fun q => q
    sigmoid := fun q => q
    mu_law_encode := fun _ => 128
    mu_law_decode := fun z _ => (z : ℚ)
    sampler := fun _ => 7 }

/-- Concrete dilated layer for the one-block example net: causal
kernel-2, dilation 1, two gate channels over one residual channel. -/
def dlEx : Conv :=
  { is_causal := true
    kernel_size := 2
    in_channels := 1
    dilation := 1
    weight := [[[1, 1]], [[1, 1]]]
    bias := none
    use_act := false
    input_memory := none }

/-- Concrete one-block Wavenet without conditioning or skip head:
quantized input embedding with classes 0 and 1, one causal dilated
block, unit gain. -/
def wC3 : Wavenet :=
  { n_layers := 1
    n_residual_channels := 1
    n_out_channels := 1
    upscale := 1
    use_conditioning := false
    same_cond_each_resblock := false
    use_cond_conv := false
    use_skip_out := false
    use_res_out_conv := false
    res_block_gain := 1
    upsample := fun xs => xs
    cond_layers := defConv
    in_layer := .quantized [[0], [1]] false
    dilate_layers := [dlEx]
    res_layers := []
    skip_layers := []
    conv_out := defConv
    conv_end := defConv }

/-- Concrete zero-block Wavenet without conditioning, used for the
inference-loop theorems: quantized single-class embedding, no skip head
(the streaming step then returns the embedded sample itself). -/
def wInf : Wavenet :=
  { n_layers := 0
    n_residual_channels := 1
    n_out_channels := 1
    upscale := 1
    use_conditioning := false
    same_cond_each_resblock := false
    use_cond_conv := false
    use_skip_out := false
    use_res_out_conv := false
    res_block_gain := 1
    upsample := fun xs => xs
    cond_layers := defConv
    in_layer := .quantized [[0]] false
    dilate_layers := []
    res_layers := []
    skip_layers := []
    conv_out := defConv
    conv_end := defConv }

/-- Inference arguments with the random-substitution policy enabled and
an effective target length of 2 (one loop iteration). -/
def argsRand : InferArgs :=
  { cond_features := none
    teacher_audio := none
    mu_quantization := 256
    randomize_input := true
    rand_sample_chance := 1/2
    length := 2
    audio_hz := 1
    batch_size := 1
    cond_channels := 0 }

/-- Inference arguments without random substitution, with a one-sample
teacher buffer and an effective target length of 4. -/
def argsDet : InferArgs :=
  { cond_features := none
    teacher_audio := some [5]
    mu_quantization := 256
    randomize_input := false
    rand_sample_chance := 0
    length := 4
    audio_hz := 1
    batch_size := 1
    cond_channels := 0 }

/-- Constant randomness oracle. -/
def rndZero : ℕ → ℤ := fun _ => 0

/-- Final loop state of inferenceRun EId wInf argsDet rndZero, written
out: target length 4, the start symbol 128 at the ends of the audio
buffer, the sampler's constant 7 at the generated indices 1..3, and the
fed inputs 5 (the teacher sample) then 7, 7 (the previously generated
samples). -/
def stC5 : InfState :=
  { net := wInf
    len := 4
    cond := none
    logits := [[0], [], [], []]
    output_audio := [128, 7, 7, 7, 128]
    inputs_fed := [5, 7, 7] }

/-- Another constant randomness oracle, different from rndZero. -/
def rndOne : ℕ → ℤ := fun _ => 1

/-- Conditioning-enabled variant of the zero-block net, with the shared
per-timestep conditioning layout and no conditioning projection. -/
def wCond : Wavenet :=
  { wInf with
    use_conditioning := true
    same_cond_each_resblock := true }

/-- The unconditional-generation arguments of the claim: conditioning
omitted, batch_size 2, cond_channels 0, length 100. -/
def args6bad : InferArgs :=
  { cond_features := none
    teacher_audio := none
    mu_quantization := 256
    randomize_input := false
    rand_sample_chance := 0
    length := 100
    audio_hz := 16000
    batch_size := 2
    cond_channels := 0 }

/-- The unconditional-generation arguments with one conditioning
channel, the minimal change the assertion at line 445 requires. -/
def args6ok : InferArgs :=
  { args6bad with cond_channels := 1 }

namespace WavenetModel

/- ------------------------------------------------------------------ -/
/- Helper lemmas about lists and the streaming convolution.           -/
/- ------------------------------------------------------------------ -/

theorem combineOut_some_some (y : Frame) (ys : List Frame) :
    combineOut (some y) (some ys) = some (y :: ys) := rfl

theorem getD_zero_eq_headD {α : Type} (l : List α) (d : α) :
    l.getD 0 d = l.headD d := by
  cases l <;> rfl

theorem reverse_getD_zero {α : Type} (l : List α) (d : α) :
    l.reverse.getD 0 d = l.getLastD d := by
  rw [getD_zero_eq_headD]
  cases h : l.reverse with
  | nil =>
    have : l = [] := by simpa using congrArg List.reverse h
    simp [this]
  | cons a t =>
    have hl : l = (a :: t).reverse := by
      have h2 := congrArg List.reverse h
      rw [List.reverse_reverse] at h2
      exact h2
    subst hl
    simp [List.getLastD_eq_getLast?]

theorem reverse_dropLast {α : Type} (l : List α) :
    l.dropLast.reverse = l.reverse.tail := by
  rcases List.eq_nil_or_concat l with h | ⟨L, b, h⟩
  · simp [h]
  · subst h
    simp [List.concat_eq_append]

theorem getLastD_cons_of_ne_nil {α : Type} (x : α) (m : List α) (d : α)
    (h : m ≠ []) : (x :: m).getLastD d = m.getLastD d := by
  rcases List.exists_cons_of_ne_nil h with ⟨b, t, rfl⟩
  simp [List.getLastD_eq_getLast?]

theorem range_map_getD {α β : Type} (f : α → β) (d : α) :
    ∀ xs : List α,
      (List.range xs.length).map (fun t => f (xs.getD t d)) = xs.map f := by
  intro xs
  induction xs with
  | nil => rfl
  | cons x rest ih =>
    rw [List.length_cons, List.range_succ_eq_map, List.map_cons, List.map_map,
      List.map_cons, ← ih]
    rfl

theorem length_foldl_pushMem (m : List Frame) :
    ∀ xs : List Frame, (xs.foldl pushMem m).length = m.length := by
  intro xs
  induction xs generalizing m with
  | nil => rfl
  | cons x rest ih =>
    simp only [List.foldl_cons]
    rw [ih]
    simp [pushMem]

/-- Streaming run of a kernel-1 layer: each step is the plain
convolution of its frame and the module state never changes. -/
theorem inferRun_k1 (c : Conv) (hk : c.kernel_size = 1) :
    ∀ xs : List Frame,
      c.inferRun xs =
        (some (xs.map (fun x => convFrame c.weight c.bias [x])), c) := by
  intro xs
  induction xs with
  | nil => rfl
  | cons x rest ih =>
    simp [Conv.inferRun, Conv.infer_step, hk, ih, combineOut]

/-- One causal kernel-2 streaming step, written with an explicit deque. -/
theorem infer_step_k2 (c : Conv) (m : List Frame) (x : Frame)
    (hk : c.kernel_size = 2) (hc : c.is_causal = true)
    (hm : c.input_memory = some m) :
    c.infer_step x =
      (some (convFrame c.weight c.bias
        [(x :: m).getLastD (zeroFrame c.in_channels), x]),
       { c with input_memory := some (pushMem m x) }) := by
  simp [Conv.infer_step, hk, hc, hm, pushMem]

/-- Uninitialized cache: the first streaming call behaves exactly as if
the cache already held the dilation zero frames init_input_memory
creates. -/
theorem inferRun_first_call (c : Conv) (xs : List Frame)
    (hk : c.kernel_size = 2) (hc : c.is_causal = true)
    (hm : c.input_memory = none) :
    (c.inferRun xs).1 =
      (({ c with input_memory := some c.init_input_memory }).inferRun xs).1 := by
  cases xs with
  | nil => rfl
  | cons x rest =>
    simp only [Conv.inferRun]
    have hstep : c.infer_step x =
        ({ c with input_memory := some c.init_input_memory }).infer_step x := by
      simp [Conv.infer_step, hm, hk, hc]
    rw [hstep]

/-- Central streaming lemma for a causal kernel-2 layer: starting from
any deque of dilation frames, the t-th streamed output convolves the
frame the deque will pop (the frame from dilation steps ago, a zero
frame while the virtual history m.reverse still covers it) with the
current frame. -/
theorem inferRun_k2_general (c : Conv) (m : List Frame) (xs : List Frame)
    (hk : c.kernel_size = 2) (hc : c.is_causal = true)
    (hm : c.input_memory = some m) (hlen : m.length = c.dilation)
    (hd : 1 ≤ c.dilation) :
    (c.inferRun xs).1 =
      some ((List.range xs.length).map (fun j =>
        convFrame c.weight c.bias
          [(m.reverse ++ xs).getD j (zeroFrame c.in_channels),
           xs.getD j (zeroFrame c.in_channels)])) := by
  induction xs generalizing c m with
  | nil => simp [Conv.inferRun]
  | cons x rest ih =>
    have hpos : 0 < m.length := by
      rw [hlen]
      exact hd
    have hmne : m ≠ [] := List.ne_nil_of_length_pos hpos
    simp only [Conv.inferRun, infer_step_k2 c m x hk hc hm]
    have hlen2 : (pushMem m x).length = c.dilation := by
      simp [pushMem, hlen]
    have ihx := ih { c with input_memory := some (pushMem m x) } (pushMem m x)
      hk hc rfl hlen2 hd
    simp only at ihx
    rw [ihx]
    rw [List.length_cons, List.range_succ_eq_map, List.map_cons, List.map_map]
    have hrevne : m.reverse ≠ [] := by
      intro h
      apply hmne
      have h2 := congrArg List.reverse h
      rw [List.reverse_reverse] at h2
      exact h2
    rcases List.exists_cons_of_ne_nil hrevne with ⟨h0, tt, hrev⟩
    rw [combineOut_some_some]
    apply congrArg some
    congr 1
    · rw [List.getD_append _ _ _ _ (by rw [List.length_reverse, hlen]; omega),
        reverse_getD_zero, getLastD_cons_of_ne_nil x m _ hmne, List.getD_cons_zero]
    · apply List.map_congr_left
      intro j _
      simp only [Function.comp]
      have hpush : (pushMem m x).reverse = tt ++ [x] := by
        simp only [pushMem, reverse_dropLast, List.reverse_cons, hrev]
        rfl
      rw [hpush, hrev]
      simp [List.getD_cons_succ, List.append_assoc]

/-- Module state after a causal kernel-2 streaming run: the deque is the
left fold of pushMem over the inputs and no other field changes. -/
theorem inferRun_k2_state (c : Conv) (m : List Frame) (xs : List Frame)
    (hk : c.kernel_size = 2) (hc : c.is_causal = true)
    (hm : c.input_memory = some m) :
    (c.inferRun xs).2 = { c with input_memory := some (xs.foldl pushMem m) } := by
  induction xs generalizing c m with
  | nil =>
    simp only [Conv.inferRun, List.foldl_nil]
    cases c
    simp_all
  | cons x rest ih =>
    simp only [Conv.inferRun, infer_step_k2 c m x hk hc hm]
    rw [ih { c with input_memory := some (pushMem m x) } (pushMem m x) hk hc rfl]
    rfl

theorem inferRun_cons_state (c : Conv) (x : Frame) (rest : List Frame) :
    (c.inferRun (x :: rest)).2 = ((c.infer_step x).2.inferRun rest).2 := rfl

/- ------------------------------------------------------------------ -/
/- Claim theorems.                                                    -/
/- ------------------------------------------------------------------ -/

/-- C1, amended: for every fixed weight/bias assignment of a causal Conv
layer with kernel_size 1 or 2, any positive dilation, and no optional
Softsign post-activation (use_act false - the amendment the
counterexample forces), calling infer_step once per timestep in order
starting from an uninitialized cache and concatenating the single-frame
outputs yields exactly the sequence forward computes on the whole input
(exact rational equality, hence inside any floating-point tolerance). -/
theorem C1_batch_streaming_equiv (c : Conv) (xs : List Frame)
    (hc : c.is_causal = true) (hk : c.kernel_size = 1 ∨ c.kernel_size = 2)
    (hd : 1 ≤ c.dilation) (ha : c.use_act = false)
    (hm : c.input_memory = none) :
    (c.inferRun xs).1 = some (c.forward xs) := by
  rcases hk with hk | hk
  · rw [inferRun_k1 c hk xs]
    rw [Conv.forward]
    simp only [hc, if_true, hk, ha, Nat.sub_self, Nat.zero_mul, List.replicate_zero,
      List.nil_append, Bool.false_eq_true, if_false, conv1dSeq, Nat.zero_mul,
      Nat.sub_zero]
    apply congrArg some
    rw [← range_map_getD (fun a => convFrame c.weight c.bias [a]) (zeroFrame c.in_channels) xs]
    apply List.map_congr_left
    intro t _
    simp [convWindow, List.range_succ]
  · rw [inferRun_first_call c xs hk hc hm]
    rw [inferRun_k2_general { c with input_memory := some c.init_input_memory }
      c.init_input_memory xs hk hc rfl (by simp [Conv.init_input_memory]) hd]
    rw [Conv.forward]
    simp only [hc, if_true, hk, ha, Bool.false_eq_true, if_false, conv1dSeq,
      Conv.init_input_memory, List.reverse_replicate,
      show (2:ℕ) - 1 = 1 from rfl, one_mul]
    apply congrArg some
    have hlen : (List.replicate c.dilation (zeroFrame c.in_channels) ++ xs).length -
        c.dilation = xs.length := by
      simp
    rw [hlen]
    apply List.map_congr_left
    intro t _
    rw [convWindow, List.range_succ, List.range_succ]
    simp only [List.range_zero, List.nil_append, List.map_cons, List.map_nil,
      List.cons_append, List.map_append, Nat.zero_mul, Nat.add_zero, Nat.one_mul]
    have h2 : xs.getD t (zeroFrame c.in_channels) =
        (List.replicate c.dilation (zeroFrame c.in_channels) ++ xs).getD
          (t + c.dilation) (zeroFrame c.in_channels) := by
      rw [List.getD_append_right _ _ _ _ (by simp), List.length_replicate]
      congr 1
      omega
    rw [← h2]

/-- C1 counterexample: the claim quantifies over every causal Conv layer
with kernel_size 1 or 2, which includes layers with the optional Softsign
post-activation; forward applies that activation (line 85-86) but
infer_step never does (lines 107-124), so on the layer convActEx and the
one-frame input [[1]] the streamed output [[1]] differs from the batch
output [[1/2]]. -/
theorem C1_counterexample_act :
    (convActEx.inferRun [[1]]).1 ≠ some (convActEx.forward [[1]]) := by
  norm_num [Conv.inferRun, Conv.infer_step, Conv.forward, convActEx, conv1dSeq,
    convFrame, convWindow, chanAt, dotQ, softsign, zeroFrame, combineOut,
    List.range_succ]

/-- C1 witness: the amended equivalence evaluated on the concrete causal
kernel-2 dilation-2 layer convK2Ex and the three-frame input xsEx. -/
theorem C1_witness :
    convK2Ex.is_causal = true ∧ (convK2Ex.kernel_size = 1 ∨ convK2Ex.kernel_size = 2) ∧
      1 ≤ convK2Ex.dilation ∧ convK2Ex.use_act = false ∧
      convK2Ex.input_memory = none ∧
      (convK2Ex.inferRun xsEx).1 = some (convK2Ex.forward xsEx) :=
  ⟨rfl, Or.inr rfl, by decide, rfl, rfl,
    C1_batch_streaming_equiv convK2Ex xsEx rfl (Or.inr rfl) (by decide) rfl rfl⟩

/-- C2: for a causal kernel-2 Conv layer, init_input_memory is exactly
dilation all-zero frames, and after every prefix of streaming calls
(every n with 1 <= n <= number of inputs, starting from the
uninitialized cache) the cache exists and its length equals the
dilation. -/
theorem C2_cache_invariant (c : Conv) (xs : List Frame) (n : ℕ)
    (hk : c.kernel_size = 2) (hc : c.is_causal = true)
    (hm : c.input_memory = none) (h1 : 1 ≤ n) (hn : n ≤ xs.length) :
    c.init_input_memory = List.replicate c.dilation (zeroFrame c.in_channels) ∧
      ∃ m2, ((c.inferRun (xs.take n)).2).input_memory = some m2 ∧
        m2.length = c.dilation := by
  refine ⟨rfl, ?_⟩
  have hne : xs.take n ≠ [] := by
    have hlt : 0 < (xs.take n).length := by
      rw [List.length_take]
      omega
    exact List.ne_nil_of_length_pos hlt
  rcases List.exists_cons_of_ne_nil hne with ⟨y, ys, hcons⟩
  rw [hcons]
  have hstep : (c.infer_step y).2 =
      { c with input_memory := some (pushMem c.init_input_memory y) } := by
    simp [Conv.infer_step, hk, hc, hm, pushMem]
  rw [inferRun_cons_state, hstep,
    inferRun_k2_state { c with input_memory := some (pushMem c.init_input_memory y) }
      (pushMem c.init_input_memory y) ys hk hc rfl]
  refine ⟨_, rfl, ?_⟩
  rw [length_foldl_pushMem]
  simp [pushMem, Conv.init_input_memory]

/-- C2 witness: the cache invariant evaluated on convK2Ex after the
first two of the three streaming inputs xsEx. -/
theorem C2_witness :
    convK2Ex.kernel_size = 2 ∧ convK2Ex.is_causal = true ∧
      convK2Ex.input_memory = none ∧ (1:ℕ) ≤ 2 ∧ 2 ≤ xsEx.length ∧
      (convK2Ex.init_input_memory =
        List.replicate convK2Ex.dilation (zeroFrame convK2Ex.in_channels) ∧
        ∃ m2, ((convK2Ex.inferRun (xsEx.take 2)).2).input_memory = some m2 ∧
          m2.length = convK2Ex.dilation) :=
  ⟨rfl, rfl, rfl, by decide, by decide,
    C2_cache_invariant convK2Ex xsEx 2 rfl rfl rfl (by decide) (by decide)⟩

/-- C8, amended: calling infer_step on a Conv layer with kernel_size > 1
that is not causal raises nothing: the Python body falls through every
branch, silently returns None, and leaves the module state (in
particular the cache) unchanged.  The documented precondition (the
docstring line 96) is not checked by any code. -/
theorem C8_noncausal_silent_none (c : Conv) (x : Frame)
    (hk : c.kernel_size ≠ 1) (hc : c.is_causal = false) :
    c.infer_step x = (none, c) := by
  simp [Conv.infer_step, hk, hc]

/-- C8 counterexample: the claim says an error is raised and that the
call never silently returns a non-result while leaving state unchanged;
on the concrete non-causal kernel-2 layer convNCEx the call does exactly
that - it returns None and the state is unchanged, and no error exists
anywhere in its body. -/
theorem C8_counterexample :
    (convNCEx.infer_step [0]).1 = none ∧ (convNCEx.infer_step [0]).2 = convNCEx :=
  ⟨rfl, rfl⟩

/-- C8 witness: the amended no-raise/no-effect behaviour evaluated on
convNCEx. -/
theorem C8_witness :
    convNCEx.kernel_size ≠ 1 ∧ convNCEx.is_causal = false ∧
      convNCEx.infer_step [5] = (none, convNCEx) :=
  ⟨by decide, rfl, C8_noncausal_silent_none convNCEx [5] (by decide) rfl⟩

/-- C10: for every Conv layer with kernel_size 1, infer_step leaves the
whole module state - in particular input_memory - unchanged, and its
output is the convolution applied directly to the single input frame. -/
theorem C10_kernel1_stateless (c : Conv) (x : Frame)
    (hk : c.kernel_size = 1) :
    c.infer_step x = (some (convFrame c.weight c.bias [x]), c) := by
  simp [Conv.infer_step, hk]

/-- C4: for every Wavenet constructed with n_layers blocks and
max_dilation M >= 1, the dilated convolution of block i (0-indexed) is
causal and kernel-2 with dilation 2^(i mod loop_factor), where
loop_factor = floor(log2 M) + 1. -/
theorem C4_dilation_cycling (n M R : ℕ)
    (wInit : ℕ → List (List (List ℚ))) (bInit : ℕ → Option (List ℚ))
    (i : ℕ) (hi : i < n) (hM : 1 ≤ M) :
    ((mkDilateLayers n M R wInit bInit).getD i defConv).dilation =
        2 ^ (i % (Nat.log2 M + 1)) ∧
      ((mkDilateLayers n M R wInit bInit).getD i defConv).kernel_size = 2 ∧
      ((mkDilateLayers n M R wInit bInit).getD i defConv).is_causal = true := by
  have hmap : (mkDilateLayers n M R wInit bInit).getD i defConv =
      { is_causal := true
        kernel_size := 2
        in_channels := R
        dilation := 2 ^ (i % (Nat.log2 M + 1))
        weight := wInit i
        bias := bInit i
        use_act := false
        input_memory := none } := by
    rw [mkDilateLayers, List.getD_eq_getElem?_getD, List.getElem?_map]
    simp [List.getElem?_range, hi]
  rw [hmap]
  exact ⟨rfl, rfl, rfl⟩

/-- C4 witness: block 12 of a 16-block stack with max_dilation 512 has
loop_factor 10 and dilation 2^(12 mod 10) = 4. -/
theorem C4_witness :
    (12 < 16 ∧ 1 ≤ 512) ∧
      (((mkDilateLayers 16 512 1 (fun _ => []) (fun _ => none)).getD 12
          defConv).dilation = 2 ^ (12 % (Nat.log2 512 + 1)) ∧
        ((mkDilateLayers 16 512 1 (fun _ => []) (fun _ => none)).getD 12
          defConv).kernel_size = 2 ∧
        ((mkDilateLayers 16 512 1 (fun _ => []) (fun _ => none)).getD 12
          defConv).is_causal = true) ∧
      2 ^ (12 % (Nat.log2 512 + 1)) = 4 :=
  ⟨⟨by omega, by omega⟩,
    C4_dilation_cycling 16 512 1 (fun _ => []) (fun _ => none) 12
      (by omega) (by omega),
    by
      rw [Nat.log2_eq_log_two, show (512:ℕ) = 2 ^ 9 from rfl,
        Nat.log_pow (by omega)]
      norm_num⟩

/-- C10 witness: the kernel-1 statelessness evaluated on the concrete
kernel-1 layer convActEx. -/
theorem C10_witness :
    convActEx.kernel_size = 1 ∧
      convActEx.infer_step [2] =
        (some (convFrame convActEx.weight convActEx.bias [[2]]), convActEx) :=
  ⟨rfl, C10_kernel1_stateless convActEx [2] rfl⟩

/- ------------------------------------------------------------------ -/
/- Causality machinery for the batch forward pass (C3).               -/
/- ------------------------------------------------------------------ -/

theorem agree_refl (t : ℕ) (xs : List Frame) : AgreeUpTo t xs xs :=
  ⟨rfl, fun _ _ => rfl⟩

theorem getElem?_zipWith2 {α β γ : Type} (g : α → β → γ) :
    ∀ (as : List α) (bs : List β) (i : ℕ),
      (List.zipWith g as bs)[i]? =
        match as[i]?, bs[i]? with
        | some a, some b => some (g a b)
        | _, _ => none := by
  intro as
  induction as with
  | nil =>
    intro bs i
    cases bs <;> cases i <;> simp
  | cons a as ih =>
    intro bs i
    cases bs with
    | nil => cases i <;> simp
    | cons b bs =>
      cases i with
      | zero => simp
      | succ j => simpa using ih bs j

theorem agree_map (t : ℕ) (f : Frame → Frame) {xs ys : List Frame}
    (h : AgreeUpTo t xs ys) : AgreeUpTo t (xs.map f) (ys.map f) := by
  refine ⟨by simp [h.1], ?_⟩
  intro i hi
  rw [List.getElem?_map, List.getElem?_map, h.2 i hi]

theorem agree_zipWith (t : ℕ) (g : Frame → Frame → Frame)
    {as bs cs ds : List Frame}
    (h1 : AgreeUpTo t as bs) (h2 : AgreeUpTo t cs ds) :
    AgreeUpTo t (List.zipWith g as cs) (List.zipWith g bs ds) := by
  refine ⟨by simp [h1.1, h2.1], ?_⟩
  intro i hi
  rw [getElem?_zipWith2, getElem?_zipWith2, h1.2 i hi, h2.2 i hi]

theorem padded_agree (t p : ℕ) (z : Frame) {xs ys : List Frame}
    (h2 : ∀ i, i < t → xs[i]? = ys[i]?) :
    ∀ m, m < t + p →
      (List.replicate p z ++ xs)[m]? = (List.replicate p z ++ ys)[m]? := by
  intro m hm
  rw [List.getElem?_append, List.getElem?_append]
  simp only [List.length_replicate]
  rcases Nat.lt_or_ge m p with hlt | hge
  · rw [if_pos hlt, if_pos hlt]
  · rw [if_neg (by omega), if_neg (by omega)]
    exact h2 (m - p) (by omega)

theorem forward_eq_padded (c : Conv) (xs : List Frame) :
    c.forward xs =
      (if c.use_act then
        (conv1dSeq c.weight c.bias c.kernel_size c.dilation c.in_channels
          (paddedOf c xs)).map (fun f => f.map softsign)
      else
        conv1dSeq c.weight c.bias c.kernel_size c.dilation c.in_channels
          (paddedOf c xs)) := rfl

theorem length_conv1dSeq (wt : List (List (List ℚ))) (b : Option (List ℚ))
    (k d chin : ℕ) (xs : List Frame) :
    (conv1dSeq wt b k d chin xs).length = xs.length - (k - 1) * d := by
  simp [conv1dSeq]

theorem length_paddedOf (c : Conv) {xs ys : List Frame}
    (h : xs.length = ys.length) :
    (paddedOf c xs).length = (paddedOf c ys).length := by
  unfold paddedOf
  cases hc : c.is_causal <;> simp [h]

theorem length_forward_eq (c : Conv) {xs ys : List Frame}
    (h : xs.length = ys.length) :
    (c.forward xs).length = (c.forward ys).length := by
  rw [forward_eq_padded, forward_eq_padded]
  cases hact : c.use_act <;>
    simp [length_conv1dSeq, length_paddedOf c h]

theorem agree_conv1dSeq (t : ℕ) (wt : List (List (List ℚ)))
    (b : Option (List ℚ)) (k d chin : ℕ) {pxs pys : List Frame}
    (hlen : pxs.length = pys.length)
    (hAg : ∀ m, m < t + (k - 1) * d → pxs[m]? = pys[m]?) :
    ∀ i, i < t →
      (conv1dSeq wt b k d chin pxs)[i]? = (conv1dSeq wt b k d chin pys)[i]? := by
  intro i hi
  unfold conv1dSeq
  rw [List.getElem?_map, List.getElem?_map, hlen]
  rcases Nat.lt_or_ge i (pys.length - (k - 1) * d) with hlt | hge
  · rw [List.getElem?_range hlt]
    have hwin : convWindow pxs k d chin i = convWindow pys k d chin i := by
      unfold convWindow
      apply List.map_congr_left
      intro j hj
      have hj2 : j < k := List.mem_range.mp hj
      have hjd : j * d ≤ (k - 1) * d := Nat.mul_le_mul_right d (by omega)
      rw [List.getD_eq_getElem?_getD, List.getD_eq_getElem?_getD,
        hAg (i + j * d) (by omega)]
    simp only [Option.map_some']
    rw [hwin]
  · rw [List.getElem?_eq_none (by simpa using hge)]
    simp

theorem paddedOf_agree (t : ℕ) (c : Conv) (hcs : c.causalSafe)
    {xs ys : List Frame} (hAg : ∀ i, i < t → xs[i]? = ys[i]?) :
    ∀ m, m < t + (c.kernel_size - 1) * c.dilation →
      (paddedOf c xs)[m]? = (paddedOf c ys)[m]? := by
  unfold paddedOf
  cases hc : c.is_causal with
  | true =>
    simp only [if_pos]
    exact padded_agree t ((c.kernel_size - 1) * c.dilation)
      (zeroFrame c.in_channels) hAg
  | false =>
    rcases hcs with hk | hk
    · simp only [Bool.false_eq_true, if_false, hk]
      intro m hm
      exact hAg m (by omega)
    · rw [hc] at hk
      cases hk

theorem agree_conv (t : ℕ) (c : Conv) (hcs : c.causalSafe)
    {xs ys : List Frame} (h : AgreeUpTo t xs ys) :
    AgreeUpTo t (c.forward xs) (c.forward ys) := by
  obtain ⟨hlen, hAg⟩ := h
  refine ⟨length_forward_eq c hlen, ?_⟩
  intro i hi
  have hmid := agree_conv1dSeq t c.weight c.bias c.kernel_size c.dilation
    c.in_channels (length_paddedOf c hlen) (paddedOf_agree t c hcs hAg) i hi
  rw [forward_eq_padded, forward_eq_padded]
  cases hact : c.use_act with
  | true =>
    simp only [if_pos]
    rw [List.getElem?_map, List.getElem?_map, hmid]
  | false =>
    simp only [Bool.false_eq_true, if_false]
    exact hmid

theorem getD_causalSafe {l : List Conv} (h : ∀ c ∈ l, c.causalSafe) (i : ℕ) :
    (l.getD i defConv).causalSafe := by
  rcases Nat.lt_or_ge i l.length with hlt | hge
  · rw [List.getD_eq_getElem?_getD, List.getElem?_eq_getElem hlt]
    exact h _ (List.getElem_mem hlt)
  · rw [List.getD_eq_getElem?_getD, List.getElem?_eq_none (by omega)]
    exact Or.inl rfl

theorem blockCondAdd_agree (w : Wavenet) (cond : Option (List Frame))
    (i t : ℕ) {as bs : List Frame} (h : AgreeUpTo t as bs) :
    AgreeUpTo t (blockCondAdd w cond i as) (blockCondAdd w cond i bs) := by
  cases cond with
  | none => exact h
  | some cf => exact agree_zipWith t frameAdd h (agree_refl t _)

theorem blockSkip_agree (w : Wavenet) (i t : ℕ)
    (hs : ∀ c ∈ w.skip_layers, c.causalSafe) {as bs : List Frame}
    {o1 o2 : Option (List Frame)} (ha : AgreeUpTo t as bs)
    (ho : OptAgree t o1 o2) :
    OptAgree t (blockSkip w i as o1) (blockSkip w i bs o2) := by
  unfold blockSkip
  cases hsk : w.use_skip_out with
  | false => simpa using ho
  | true =>
    simp only [if_pos]
    cases o1 with
    | none =>
      cases o2 with
      | none => exact agree_conv t _ (getD_causalSafe hs i) ha
      | some b => exact ho.elim
    | some a =>
      cases o2 with
      | none => exact ho.elim
      | some b =>
        exact agree_zipWith t frameAdd (agree_conv t _ (getD_causalSafe hs i) ha) ho

theorem blockRes_agree (w : Wavenet) (i t : ℕ)
    (hr : ∀ c ∈ w.res_layers, c.causalSafe) {as bs : List Frame}
    (h : AgreeUpTo t as bs) :
    AgreeUpTo t (blockRes w i as) (blockRes w i bs) := by
  unfold blockRes
  split_ifs with hc
  · exact agree_conv t _ (getD_causalSafe hr i) h
  · exact h

theorem resBlockBatch_agree (E : Externals) (w : Wavenet)
    (cond : Option (List Frame)) (t i : ℕ)
    {st st2 : List Frame × Option (List Frame)}
    (hdil : ∀ c ∈ w.dilate_layers, c.causalSafe)
    (hs : ∀ c ∈ w.skip_layers, c.causalSafe)
    (hr : ∀ c ∈ w.res_layers, c.causalSafe)
    (h1 : AgreeUpTo t st.1 st2.1) (h2 : OptAgree t st.2 st2.2) :
    AgreeUpTo t (resBlockBatch E w cond st i).1 (resBlockBatch E w cond st2 i).1 ∧
      OptAgree t (resBlockBatch E w cond st i).2 (resBlockBatch E w cond st2 i).2 := by
  have hacts : AgreeUpTo t
      ((blockCondAdd w cond i ((w.dilate_layers.getD i defConv).forward st.1)).map
        (gateFrame E w.n_residual_channels))
      ((blockCondAdd w cond i ((w.dilate_layers.getD i defConv).forward st2.1)).map
        (gateFrame E w.n_residual_channels)) :=
    agree_map t _ (blockCondAdd_agree w cond i t
      (agree_conv t _ (getD_causalSafe hdil i) h1))
  constructor
  · exact agree_map t _ (agree_zipWith t frameAdd (blockRes_agree w i t hr hacts) h1)
  · exact blockSkip_agree w i t hs hacts h2

theorem resLoop_agree (E : Externals) (w : Wavenet)
    (cond : Option (List Frame)) (t : ℕ)
    (hdil : ∀ c ∈ w.dilate_layers, c.causalSafe)
    (hs : ∀ c ∈ w.skip_layers, c.causalSafe)
    (hr : ∀ c ∈ w.res_layers, c.causalSafe) :
    ∀ (n : ℕ) (p q : List Frame × Option (List Frame)),
      AgreeUpTo t p.1 q.1 → OptAgree t p.2 q.2 →
      AgreeUpTo t ((List.range n).foldl (resBlockBatch E w cond) p).1
          ((List.range n).foldl (resBlockBatch E w cond) q).1 ∧
        OptAgree t ((List.range n).foldl (resBlockBatch E w cond) p).2
          ((List.range n).foldl (resBlockBatch E w cond) q).2 := by
  intro n
  induction n with
  | zero =>
    intro p q h1 h2
    exact ⟨h1, h2⟩
  | succ k ih =>
    intro p q h1 h2
    rw [List.range_succ, List.foldl_append, List.foldl_append]
    simp only [List.foldl_cons, List.foldl_nil]
    have hk := ih p q h1 h2
    exact resBlockBatch_agree E w cond t k hdil hs hr hk.1 hk.2

theorem audioLen_eq {t : ℕ} {x y : AudioInput} (h : AudioAgreeUpTo t x y) :
    x.len = y.len := by
  cases x <;> cases y <;> simp [AudioAgreeUpTo] at h <;> simp [AudioInput.len, h.1]

theorem applySeq_agree (il : InLayer)
    (hsafe : match il with
             | .conv c => c.causalSafe
             | .quantized _ _ => True)
    {t : ℕ} {x y : AudioInput} (h : AudioAgreeUpTo t x y) :
    OptAgree t (il.applySeq x) (il.applySeq y) := by
  cases il with
  | quantized table ua =>
    cases x with
    | classes xs =>
      cases y with
      | classes ys =>
        obtain ⟨hlen, hAg⟩ := h
        refine ⟨by simp [hlen], ?_⟩
        intro i hi
        rw [List.getElem?_map, List.getElem?_map, hAg i hi]
      | frames ys => exact h.elim
    | frames xs =>
      cases y with
      | classes ys => exact h.elim
      | frames ys => trivial
  | conv c =>
    cases x with
    | classes xs =>
      cases y with
      | classes ys => trivial
      | frames ys => exact h.elim
    | frames xs =>
      cases y with
      | classes ys => exact h.elim
      | frames ys => exact agree_conv t c hsafe h

theorem headOut_agree (E : Externals) (w : Wavenet) (t : ℕ)
    (hco : w.conv_out.causalSafe) (hce : w.conv_end.causalSafe)
    {res res2 : List Frame × Option (List Frame)}
    (h1 : AgreeUpTo t res.1 res2.1) (h2 : OptAgree t res.2 res2.2) :
    ExceptAgree t (headOut E w res) (headOut E w res2) := by
  unfold headOut
  cases hsk : w.use_skip_out with
  | false => exact h1
  | true =>
    simp only [if_pos]
    cases hres : res.2 with
    | none =>
      cases hres2 : res2.2 with
      | none => rfl
      | some b =>
        rw [hres, hres2] at h2
        exact h2.elim
    | some a =>
      cases hres2 : res2.2 with
      | none =>
        rw [hres, hres2] at h2
        exact h2.elim
      | some b =>
        rw [hres, hres2] at h2
        exact agree_conv t _ hce (agree_map t _ (agree_conv t _ hco (agree_map t _ h2)))

theorem shiftOut_causal (t : ℕ) {u v : List Frame} (h : AgreeUpTo t u v) :
    (∃ e, shiftOut u = .error e ∧ shiftOut v = .error e) ∨
    (∃ out out2, shiftOut u = .ok out ∧ shiftOut v = .ok out2 ∧
      (∀ q ∈ out.headD [], q = 0) ∧ (∀ q ∈ out2.headD [], q = 0) ∧
      ∀ j, 1 ≤ j → j ≤ t → out[j]? = out2[j]?) := by
  obtain ⟨hlen, hAg⟩ := h
  unfold shiftOut
  rcases Nat.eq_zero_or_pos u.length with h0 | hpos
  · left
    exact ⟨.indexError, by rw [if_pos h0], by rw [if_pos (hlen ▸ h0)]⟩
  · right
    refine ⟨_, _, by rw [if_neg (by omega)], by rw [if_neg (by omega : ¬v.length = 0)], ?_, ?_, ?_⟩
    · intro q hq
      simp at hq
      exact hq.2
    · intro q hq
      simp at hq
      exact hq.2
    · intro j hj1 hjt
      obtain ⟨j2, rfl⟩ : ∃ j2, j = j2 + 1 := ⟨j - 1, by omega⟩
      simp only [List.getElem?_cons_succ, List.getElem?_dropLast, hlen]
      rcases Nat.lt_or_ge j2 (v.length - 1) with hlt | hge
      · rw [if_pos hlt, if_pos hlt, hAg j2 (by omega)]
      · rw [if_neg (by omega), if_neg (by omega)]

/-- C3: the batch-mode forward pass of the Wavenet stack produces an
output whose value at time index 0 is identically zero (every channel),
and whose value at every index t >= 1 is unchanged by any modification
of the input at indices >= t (a same-kind input of the same length that
agrees strictly below t gives the same output entry at t, with the
conditioning features held fixed).  The causal shift of lines 347-354
discards the last raw timestep and prepends a zero vector. -/
theorem C3_causal_shift (E : Externals) (w : Wavenet)
    (features : Option (List Frame)) (x x2 : AudioInput) (t : ℕ)
    (out out2 : List Frame)
    (hw : w.causalSafe) (ht : 1 ≤ t) (hagree : AudioAgreeUpTo t x x2)
    (h1 : Wavenet.forward E w features x = .ok out)
    (h2 : Wavenet.forward E w features x2 = .ok out2) :
    (∀ q ∈ out.headD [], q = 0) ∧ (∀ q ∈ out2.headD [], q = 0) ∧
      out[t]? = out2[t]? := by
  obtain ⟨hdil, hs, hr, hco, hce, hin⟩ := hw
  have hLen : x.len = x2.len := audioLen_eq hagree
  unfold Wavenet.forward at h1 h2
  rw [← hLen] at h2
  cases hprep : prepCond w features x.len with
  | error e =>
    rw [hprep] at h1
    simp at h1
  | ok cond =>
    rw [hprep] at h1 h2
    dsimp only at h1 h2
    have hseq := applySeq_agree w.in_layer hin hagree
    cases hax : w.in_layer.applySeq x with
    | none =>
      rw [hax] at h1
      simp at h1
    | some fwd0 =>
      cases hax2 : w.in_layer.applySeq x2 with
      | none =>
        rw [hax, hax2] at hseq
        exact hseq.elim
      | some fwd02 =>
        rw [hax] at h1
        rw [hax2] at h2
        rw [hax, hax2] at hseq
        dsimp only at h1 h2
        have hloop := resLoop_agree E w cond t hdil hs hr w.n_layers
          (fwd0, none) (fwd02, none) hseq trivial
        have hhead := headOut_agree E w t hco hce hloop.1 hloop.2
        cases hho : headOut E w
            ((List.range w.n_layers).foldl (resBlockBatch E w cond) (fwd0, none)) with
        | error e =>
          rw [hho] at h1
          simp at h1
        | ok u =>
          cases hho2 : headOut E w
              ((List.range w.n_layers).foldl (resBlockBatch E w cond) (fwd02, none)) with
          | error e =>
            rw [hho, hho2] at hhead
            exact hhead.elim
          | ok v =>
            rw [hho] at h1
            rw [hho2] at h2
            rw [hho, hho2] at hhead
            dsimp only at h1 h2
            rcases shiftOut_causal t hhead with ⟨e, he1, he2⟩ |
              ⟨o1, o2, ho1, ho2, hz1, hz2, hj⟩
            · rw [he1] at h1
              simp at h1
            · rw [ho1] at h1
              rw [ho2] at h2
              cases h1
              cases h2
              exact ⟨hz1, hz2, hj t ht le_rfl⟩

/-- C3 witness: the causal shift evaluated on the one-block net wC3 with
class inputs 0,1 versus 0,0, which agree strictly below t = 1. -/
theorem C3_witness :
    wC3.causalSafe ∧ (1:ℕ) ≤ 1 ∧
      AudioAgreeUpTo 1 (AudioInput.classes [0, 1]) (AudioInput.classes [0, 0]) ∧
      Wavenet.forward EId wC3 none (AudioInput.classes [0, 1]) = .ok [[0], [0]] ∧
      Wavenet.forward EId wC3 none (AudioInput.classes [0, 0]) = .ok [[0], [0]] ∧
      ((∀ q ∈ ([[0], [0]] : List Frame).headD [], q = 0) ∧
        (∀ q ∈ ([[0], [0]] : List Frame).headD [], q = 0) ∧
        ([[0], [0]] : List Frame)[1]? = ([[0], [0]] : List Frame)[1]?) := by
  have hsafe : wC3.causalSafe := by
    refine ⟨?_, ?_, ?_, Or.inl rfl, Or.inl rfl, trivial⟩ <;>
      simp [wC3, dlEx, Conv.causalSafe, defConv]
  have hagree : AudioAgreeUpTo 1 (AudioInput.classes [0, 1])
      (AudioInput.classes [0, 0]) := by
    refine ⟨rfl, ?_⟩
    intro i hi
    have h0 : i = 0 := by omega
    subst h0
    rfl
  have h1 : Wavenet.forward EId wC3 none (AudioInput.classes [0, 1]) =
      .ok [[0], [0]] := by
    norm_num [Wavenet.forward, prepCond, wC3, InLayer.applySeq, embedLookup,
      resBlockBatch, blockCondAdd, blockSkip, blockRes, gateFrame, frameAdd,
      frameMul, headOut, shiftOut, Conv.forward, conv1dSeq, convFrame,
      convWindow, chanAt, dotQ, dlEx, zeroFrame, EId, List.range_succ,
      AudioInput.len, List.getLastD_eq_getLast?]
  have h2 : Wavenet.forward EId wC3 none (AudioInput.classes [0, 0]) =
      .ok [[0], [0]] := by
    norm_num [Wavenet.forward, prepCond, wC3, InLayer.applySeq, embedLookup,
      resBlockBatch, blockCondAdd, blockSkip, blockRes, gateFrame, frameAdd,
      frameMul, headOut, shiftOut, Conv.forward, conv1dSeq, convFrame,
      convWindow, chanAt, dotQ, dlEx, zeroFrame, EId, List.range_succ,
      AudioInput.len, List.getLastD_eq_getLast?]
  exact ⟨hsafe, le_rfl, hagree, h1, h2,
    C3_causal_shift EId wC3 none (AudioInput.classes [0, 1])
      (AudioInput.classes [0, 0]) 1 [[0], [0]] [[0], [0]]
      hsafe le_rfl hagree h1 h2⟩

/- ------------------------------------------------------------------ -/
/- Inference-loop claims.                                             -/
/- ------------------------------------------------------------------ -/

/-- C7, code bug: with randomize_input enabled the loop evaluates
random.uniform < rand_sample_chance at its first iteration, comparing
the function object random.uniform itself with a float - a TypeError in
Python 3 - so the run fails instead of substituting a uniformly random
class index with probability rand_sample_chance and never failing, as
the claim states.  Evaluated at a concrete configuration whose loop runs
one iteration. -/
theorem C7_code_bug_eval :
    inferenceRun EId wInf argsRand rndZero = .error .typeError := by
  rfl

/-- C9: with the random-substitution policy disabled, the inference run
never consults the randomness oracle, so two executions with identical
weights, initial cache state, conditioning, teacher input and
(deterministic) sampler produce identical final states - the same
logits buffer and the same output-audio buffer - and identical decoded
audio. -/
theorem C9_determinism (E : Externals) (w : Wavenet) (a : InferArgs)
    (rnd1 rnd2 : ℕ → ℤ) (hr : a.randomize_input = false) :
    inferenceRun E w a rnd1 = inferenceRun E w a rnd2 ∧
      inferenceAudio E w a rnd1 = inferenceAudio E w a rnd2 := by
  have hstep : inferenceStep E a (a.teacher_audio.getD []) rnd1 =
      inferenceStep E a (a.teacher_audio.getD []) rnd2 := by
    funext st s
    unfold inferenceStep pickForwardSample
    simp [hr]
  have hrun : inferenceRun E w a rnd1 = inferenceRun E w a rnd2 := by
    unfold inferenceRun
    rw [hstep]
  refine ⟨hrun, ?_⟩
  unfold inferenceAudio
  rw [hrun]

/-- C9 witness: the oracle-independence evaluated on the zero-block net
with two different oracles. -/
theorem C9_witness :
    argsDet.randomize_input = false ∧
      inferenceRun EId wInf argsDet rndZero = inferenceRun EId wInf argsDet rndOne ∧
      inferenceAudio EId wInf argsDet rndZero = inferenceAudio EId wInf argsDet rndOne := by
  have h := C9_determinism EId wInf argsDet rndZero rndOne rfl
  exact ⟨rfl, h.1, h.2⟩

theorem except_bind_ok {α β : Type} (a : α) (f : α → Except PyError β) :
    (Except.ok a >>= f) = f a := rfl

theorem except_bind_error {α β : Type} (e : PyError)
    (f : α → Except PyError β) :
    ((Except.error e : Except PyError α) >>= f) = .error e := rfl

theorem except_pure_eq {α : Type} (a : α) :
    (pure a : Except PyError α) = .ok a := rfl

/-- Shape of one successful loop iteration without random substitution:
the step writes the streamed logits at s+1, the sampler's draw from them
at s+1 of the audio buffer, and records the fed input sample - the
teacher sample while the teacher lasts, the previously generated sample
afterwards. -/
theorem inferenceStep_ok_shape (E : Externals) (a : InferArgs) (T : List ℤ)
    (rnd : ℕ → ℤ) (sn st : InfState) (k : ℕ)
    (hr : a.randomize_input = false)
    (hst : inferenceStep E a T rnd sn k = .ok st) :
    ∃ res : Frame × Wavenet,
      st = { sn with
        net := res.2
        logits := sn.logits.set (k + 1) res.1
        output_audio := sn.output_audio.set (k + 1) (E.sampler res.1)
        inputs_fed := sn.inputs_fed ++
          [if k < T.length then T.getD k 0 else sn.output_audio.getD k 0] } := by
  unfold inferenceStep at hst
  cases hcs : condSampleAt sn.net sn.cond k with
  | error e =>
    rw [hcs] at hst
    simp at hst
  | ok cs =>
    rw [hcs] at hst
    dsimp only at hst
    have hpick : pickForwardSample a T sn.output_audio rnd k =
        .ok (if k < T.length then T.getD k 0 else sn.output_audio.getD k 0) := by
      unfold pickForwardSample
      simp only [hr, Bool.false_eq_true, if_false]
      split_ifs <;> rfl
    rw [hpick] at hst
    dsimp only at hst
    cases hin : Wavenet.infer_step E sn.net cs
        (if k < T.length then T.getD k 0 else sn.output_audio.getD k 0) with
    | error e =>
      rw [hin] at hst
      simp at hst
    | ok res =>
      rw [hin] at hst
      dsimp only at hst
      exact ⟨res, (Except.ok.inj hst).symm⟩

/-- Main invariant of the inference loop without random substitution:
after n successful iterations from a fresh trace, the shape fields are
unchanged, the trace holds one entry per iteration, only buffer entries
1..n have been written, every written audio entry is the sampler applied
to the logits entry written beside it, and the trace entry of iteration
s is the teacher sample for s below the teacher length and the (final)
audio-buffer entry at s otherwise. -/
theorem inference_loop_invariant (E : Externals) (a : InferArgs)
    (T : List ℤ) (rnd : ℕ → ℤ) (st0 : InfState)
    (hr : a.randomize_input = false) (h0 : st0.inputs_fed = []) :
    ∀ n st, (List.range n).foldlM (inferenceStep E a T rnd) st0 = .ok st →
      st.len = st0.len ∧ st.cond = st0.cond ∧
      st.output_audio.length = st0.output_audio.length ∧
      st.logits.length = st0.logits.length ∧
      st.inputs_fed.length = n ∧
      (∀ j, n + 1 ≤ j ∨ j = 0 → st.output_audio[j]? = st0.output_audio[j]?) ∧
      (∀ j, 1 ≤ j → j ≤ n → j < st0.logits.length →
        j < st0.output_audio.length →
        st.output_audio.getD j 0 = E.sampler (st.logits.getD j [])) ∧
      (∀ s, s < n →
        st.inputs_fed[s]? =
          some (if s < T.length then T.getD s 0
                else st.output_audio.getD s 0)) := by
  intro n
  induction n with
  | zero =>
    intro st hst
    simp only [List.range_zero, List.foldlM_nil, except_pure_eq] at hst
    have hst2 : st0 = st := by
      simpa using hst
    subst hst2
    refine ⟨rfl, rfl, rfl, rfl, by simp [h0], fun j _ => rfl, ?_, ?_⟩
    · intro j hj1 hj2 _ _
      omega
    · intro s hs
      omega
  | succ k ih =>
    intro st hst
    rw [List.range_succ, List.foldlM_append] at hst
    cases hrunk : (List.range k).foldlM (inferenceStep E a T rnd) st0 with
    | error e =>
      rw [hrunk] at hst
      rw [except_bind_error] at hst
      simp at hst
    | ok sn =>
      rw [hrunk] at hst
      rw [except_bind_ok] at hst
      simp only [List.foldlM_cons, List.foldlM_nil] at hst
      cases hs1 : inferenceStep E a T rnd sn k with
      | error e =>
        rw [hs1] at hst
        rw [except_bind_error] at hst
        simp at hst
      | ok st2 =>
        rw [hs1] at hst
        rw [except_bind_ok] at hst
        have hst2 : st2 = st := by
          simpa [except_pure_eq] using hst
        subst hst2
        obtain ⟨ilen, icond, iaud, ilog, itr, iun, isamp, itrace⟩ := ih sn hrunk
        obtain ⟨res, hshape⟩ := inferenceStep_ok_shape E a T rnd sn st2 k hr hs1
        subst hshape
        refine ⟨ilen, icond, by simpa using iaud, by simpa using ilog,
          by simp [itr], ?_, ?_, ?_⟩
        · intro j hj
          have hne : k + 1 ≠ j := by omega
          simp only [List.getElem?_set_ne hne]
          exact iun j (by omega)
        · intro j hj1 hj2 hjlog hjaud
          rcases Nat.lt_or_ge j (k + 1) with hlt | hge
          · have hne : k + 1 ≠ j := by omega
            simp only [List.getD_eq_getElem?_getD, List.getElem?_set_ne hne]
            rw [← List.getD_eq_getElem?_getD, ← List.getD_eq_getElem?_getD]
            exact isamp j hj1 (by omega) hjlog hjaud
          · have hj3 : j = k + 1 := by omega
            subst hj3
            rw [List.getD_eq_getElem?_getD,
              List.getElem?_set_eq_of_lt _ (by omega : k + 1 < sn.output_audio.length),
              List.getD_eq_getElem?_getD,
              List.getElem?_set_eq_of_lt _ (by omega : k + 1 < sn.logits.length)]
            rfl
        · intro s hs
          rcases Nat.lt_or_ge s k with hlt | hge
          · rw [List.getElem?_append, if_pos (by omega : s < sn.inputs_fed.length)]
            rw [itrace s hlt]
            have hne : k + 1 ≠ s := by omega
            simp only [List.getD_eq_getElem?_getD, List.getElem?_set_ne hne]
          · have hsk : s = k := by omega
            subst hsk
            rw [List.getElem?_append, if_neg (by omega : ¬s < sn.inputs_fed.length)]
            have hidx : s - sn.inputs_fed.length = 0 := by omega
            rw [hidx]
            have hne : s + 1 ≠ s := by omega
            simp only [List.getElem?_cons_zero, List.getD_eq_getElem?_getD,
              List.getElem?_set_ne hne]

/-- C5: in the inference loop without random substitution, given a
teacher buffer of length K with 1 <= K < target length L, the input fed
to the streaming step at every timestep s < K is teacher_audio[s], and
at every timestep K <= s <= L-2 it is the sample the sampler produced at
the previous step, read back from index s of the output-audio buffer -
whose entry at s is exactly the sampler applied to the logits stored at
index s. -/
theorem C5_teacher_switch (E : Externals) (w : Wavenet) (a : InferArgs)
    (rnd : ℕ → ℤ) (T : List ℤ) (st : InfState)
    (hr : a.randomize_input = false)
    (hT : a.teacher_audio = some T) (hK : 1 ≤ T.length)
    (hrun : inferenceRun E w a rnd = .ok st) (hKL : T.length < st.len) :
    (∀ s, s < T.length → st.inputs_fed[s]? = some (T.getD s 0)) ∧
      (∀ s, T.length ≤ s → s + 2 ≤ st.len →
        st.inputs_fed[s]? = some (st.output_audio.getD s 0) ∧
        st.output_audio.getD s 0 = E.sampler (st.logits.getD s [])) := by
  unfold inferenceRun at hrun
  cases hinit : inferenceInit w a with
  | error e =>
    rw [hinit] at hrun
    simp at hrun
  | ok res =>
    rw [hinit] at hrun
    dsimp only at hrun
    rw [hT] at hrun
    simp only [Option.getD_some] at hrun
    obtain ⟨hlen, hcond, haud, hlog, htr, hun, hsamp, htrace⟩ :=
      inference_loop_invariant E a T rnd
        { net := w
          len := res.1
          cond := res.2
          logits := List.replicate res.1 (zeroFrame w.n_out_channels)
          output_audio := List.replicate (res.1 + 1) (E.mu_law_encode 0)
          inputs_fed := [] } hr rfl (res.1 - 1) st hrun
    have hstlen : st.len = res.1 := hlen
    constructor
    · intro s hs
      have h1 := htrace s (by omega)
      rw [if_pos hs] at h1
      exact h1
    · intro s hsK hsL
      have h1 := htrace s (by omega)
      rw [if_neg (by omega)] at h1
      refine ⟨h1, ?_⟩
      exact hsamp s (by omega) (by omega)
        (by simp only [List.length_replicate]; omega)
        (by simp only [List.length_replicate]; omega)

/-- C5 witness: the teacher switch evaluated on the zero-block net with
teacher buffer [5] (K = 1) and target length 4: the first fed input is
the teacher sample 5 and the later fed inputs are the previously
generated samples 7 read back from the audio buffer. -/
theorem C5_witness :
    argsDet.randomize_input = false ∧
      argsDet.teacher_audio = some [5] ∧ 1 ≤ ([5] : List ℤ).length ∧
      inferenceRun EId wInf argsDet rndZero = .ok stC5 ∧
      ([5] : List ℤ).length < stC5.len ∧
      ((∀ s, s < ([5] : List ℤ).length →
          stC5.inputs_fed[s]? = some (([5] : List ℤ).getD s 0)) ∧
        (∀ s, ([5] : List ℤ).length ≤ s → s + 2 ≤ stC5.len →
          stC5.inputs_fed[s]? = some (stC5.output_audio.getD s 0) ∧
          stC5.output_audio.getD s 0 = EId.sampler (stC5.logits.getD s []))) := by
  have hrun : inferenceRun EId wInf argsDet rndZero = .ok stC5 := rfl
  exact ⟨rfl, rfl, by decide, hrun, by decide,
    C5_teacher_switch EId wInf argsDet rndZero [5] stC5 rfl rfl (by decide)
      hrun (by decide)⟩

theorem getD_DilOK {l : List Conv} (h : ∀ c ∈ l, DilOK c) (i : ℕ) :
    DilOK (l.getD i defConv) := by
  rcases Nat.lt_or_ge i l.length with hlt | hge
  · rw [List.getD_eq_getElem?_getD, List.getElem?_eq_getElem hlt]
    exact h _ (List.getElem_mem hlt)
  · rw [List.getD_eq_getElem?_getD, List.getElem?_eq_none (by omega)]
    exact Or.inl rfl

/-- A dilated layer that satisfies the constructor's shape streams: its
infer_step returns a frame, and the updated layer still satisfies the
shape (only the cache changes). -/
theorem infer_step_some_of_DilOK (c : Conv) (x : Frame) (hd : DilOK c) :
    ∃ y c2, c.infer_step x = (some y, c2) ∧ DilOK c2 := by
  rcases hd with hk | ⟨hk, hc⟩
  · refine ⟨convFrame c.weight c.bias [x], c, ?_, Or.inl hk⟩
    simp [Conv.infer_step, hk]
  · have hstep : c.infer_step x =
        (some (convFrame c.weight c.bias
          [(x :: c.input_memory.getD c.init_input_memory).getLastD
            (zeroFrame c.in_channels), x]),
         { c with input_memory := some (x :: c.input_memory.getD c.init_input_memory).dropLast }) := by
      simp [Conv.infer_step, hk, hc]
    exact ⟨_, _, hstep, Or.inr ⟨hk, hc⟩⟩

/-- One streaming residual block never fails on a well-shaped dilated
layer list, preserves the shape, and fills the skip accumulator when the
skip head is in use. -/
theorem resBlockStep_ok (E : Externals) (w : Wavenet) (cond : Option Frame)
    (fwd : Frame) (skip : Option Frame) (dls : List Conv) (i : ℕ)
    (hd : ∀ c ∈ dls, DilOK c) :
    ∃ r : Frame × Option Frame × List Conv,
      resBlockStep E w cond (fwd, skip, dls) i = .ok r ∧
      (∀ c ∈ r.2.2, DilOK c) ∧
      (w.use_skip_out = true → r.2.1.isSome = true) := by
  obtain ⟨y, c2, hstep, hd2⟩ :=
    infer_step_some_of_DilOK (dls.getD i defConv) fwd (getD_DilOK hd i)
  unfold resBlockStep
  dsimp only
  rw [hstep]
  dsimp only
  refine ⟨_, rfl, ?_, ?_⟩
  · intro c hc
    rcases List.mem_or_eq_of_mem_set hc with h | h
    · exact hd c h
    · rw [h]
      exact hd2
  · intro hsk
    simp [hsk]

/-- The streaming residual-block loop never fails on a well-shaped
dilated layer list; after at least one block (or with an already filled
accumulator) the skip sum is present whenever the skip head is in
use. -/
theorem resBlockFold_ok (E : Externals) (w : Wavenet) (cond : Option Frame) :
    ∀ (n : ℕ) (fwd : Frame) (skip : Option Frame) (dls : List Conv),
      (∀ c ∈ dls, DilOK c) →
      ∃ r : Frame × Option Frame × List Conv,
        (List.range n).foldlM (resBlockStep E w cond) (fwd, skip, dls) = .ok r ∧
        (∀ c ∈ r.2.2, DilOK c) ∧
        (w.use_skip_out = true → 1 ≤ n → r.2.1.isSome = true) := by
  intro n
  induction n with
  | zero =>
    intro fwd skip dls hd
    exact ⟨(fwd, skip, dls), rfl, hd, fun _ h => absurd h (by omega)⟩
  | succ k ih =>
    intro fwd skip dls hd
    obtain ⟨r, hr, hd2, _⟩ := ih fwd skip dls hd
    obtain ⟨r2, hr2, hd3, hskip2⟩ := resBlockStep_ok E w cond r.1 r.2.1 r.2.2 k hd2
    refine ⟨r2, ?_, hd3, fun hsk _ => hskip2 hsk⟩
    rw [List.range_succ, List.foldlM_append, hr, except_bind_ok]
    simp only [List.foldlM_cons, List.foldlM_nil]
    rw [hr2, except_bind_ok, except_pure_eq]

/-- The streaming Wavenet step never fails on a net whose dilated layers
are well shaped and whose skip head, if used, has at least one block:
it returns a frame and the same net with updated caches. -/
theorem infer_step_ok (E : Externals) (w : Wavenet) (cond : Option Frame)
    (sample : ℤ) (hw : ∀ c ∈ w.dilate_layers, DilOK c)
    (hskipn : w.use_skip_out = true → 1 ≤ w.n_layers) :
    ∃ (out : Frame) (dls2 : List Conv),
      Wavenet.infer_step E w cond sample =
        .ok (out, { w with dilate_layers := dls2 }) ∧
      (∀ c ∈ dls2, DilOK c) := by
  obtain ⟨r, hr, hd2, hskip⟩ := resBlockFold_ok E w cond w.n_layers
    (w.in_layer.applyStep sample) none w.dilate_layers hw
  unfold Wavenet.infer_step
  dsimp only
  rw [hr]
  dsimp only
  cases hsk : w.use_skip_out with
  | false =>
    refine ⟨r.1, r.2.2, ?_, hd2⟩
    simp
  | true =>
    have hs := hskip hsk (hskipn hsk)
    rcases Option.isSome_iff_exists.mp hs with ⟨sk, hsk2⟩
    rw [hsk2]
    dsimp only
    exact ⟨_, r.2.2, rfl, hd2⟩

/-- The inference loop completes without random substitution on a
stream-safe net in the shared-conditioning layout, provided the
conditioning covers every loop index; the target length, conditioning
and buffer sizes are unchanged. -/
theorem inference_loop_ok (E : Externals) (a : InferArgs) (T : List ℤ)
    (rnd : ℕ → ℤ) (st0 : InfState)
    (hr : a.randomize_input = false)
    (hcond : st0.net.use_conditioning = true)
    (hcc : st0.net.use_cond_conv = false)
    (hsame : st0.net.same_cond_each_resblock = true)
    (cf : List Frame) (hcf : st0.cond = some cf)
    (hskipn : st0.net.use_skip_out = true → 1 ≤ st0.net.n_layers)
    (hdil : ∀ c ∈ st0.net.dilate_layers, DilOK c) :
    ∀ n, n ≤ cf.length →
      ∃ st, (List.range n).foldlM (inferenceStep E a T rnd) st0 = .ok st ∧
        st.len = st0.len ∧ st.cond = st0.cond ∧
        st.output_audio.length = st0.output_audio.length := by
  suffices h : ∀ n, n ≤ cf.length →
      ∃ st, (List.range n).foldlM (inferenceStep E a T rnd) st0 = .ok st ∧
        st.len = st0.len ∧ st.cond = st0.cond ∧
        st.output_audio.length = st0.output_audio.length ∧
        st.net = { st0.net with dilate_layers := st.net.dilate_layers } ∧
        (∀ c ∈ st.net.dilate_layers, DilOK c) by
    intro n hn
    obtain ⟨st, h1, h2, h3, h4, _, _⟩ := h n hn
    exact ⟨st, h1, h2, h3, h4⟩
  intro n
  induction n with
  | zero =>
    intro _
    exact ⟨st0, by simp [List.foldlM_nil, except_pure_eq], rfl, rfl, rfl, rfl, hdil⟩
  | succ k ih =>
    intro hn
    obtain ⟨sn, hrun, hlen, hcond2, haud, hnet, hdil2⟩ := ih (by omega)
    obtain ⟨f, hf⟩ : ∃ f, cf[k]? = some f := by
      rw [List.getElem?_eq_getElem (by omega : k < cf.length)]
      exact ⟨_, rfl⟩
    have hu1 : sn.net.use_conditioning = true := by
      rw [hnet]
      exact hcond
    have hu2 : sn.net.use_cond_conv = false := by
      rw [hnet]
      exact hcc
    have hu3 : sn.net.same_cond_each_resblock = true := by
      rw [hnet]
      exact hsame
    have hcondS : condSampleAt sn.net sn.cond k = .ok (some f) := by
      unfold condSampleAt
      rw [hu1, hcond2, hcf, hu2, hu3]
      simp [hf]
    have hsk2 : sn.net.use_skip_out = true → 1 ≤ sn.net.n_layers := by
      rw [hnet]
      exact hskipn
    obtain ⟨fs, hfs⟩ : ∃ fs, pickForwardSample a T sn.output_audio rnd k = .ok fs := by
      unfold pickForwardSample
      simp only [hr, Bool.false_eq_true, if_false]
      split_ifs <;> exact ⟨_, rfl⟩
    obtain ⟨out, dls2, hin, hdil3⟩ :=
      infer_step_ok E sn.net (some f) fs hdil2 hsk2
    refine ⟨{ sn with
        net := { sn.net with dilate_layers := dls2 }
        logits := sn.logits.set (k + 1) out
        output_audio := sn.output_audio.set (k + 1) (E.sampler out)
        inputs_fed := sn.inputs_fed ++ [fs] }, ?_, hlen, hcond2,
      by simpa using haud, ?_, hdil3⟩
    · rw [List.range_succ, List.foldlM_append, hrun, except_bind_ok]
      simp only [List.foldlM_cons, List.foldlM_nil]
      unfold inferenceStep
      rw [hcondS]
      dsimp only
      rw [hfs]
      dsimp only
      rw [hin]
      dsimp only
      rw [except_bind_ok, except_pure_eq]
    · rw [hnet]

/-- C6 counterexample: with conditioning omitted, batch_size 2,
cond_channels 0 and length 100, the INIT phase of the loop fails the
assertion batch_size > 0 and cond_channels > 0 (line 445) and raises -
a configuration error, which the claim says does not happen. -/
theorem C6_counterexample :
    inferenceRun EId wCond args6bad rndZero = .error .assertionError := by
  rfl

/-- C6, amended: with conditioning omitted, positive batch_size, at
least one conditioning channel (the assertion at line 445 requires
cond_channels > 0, refuting the claim's cond_channels = 0), and positive
length, the inference loop raises no configuration error and runs to
completion on a stream-safe net (shown here in the shared-conditioning
layout with no conditioning projection); the target length is the
supplied length, the output-audio buffer holds length + 1 entries
(start symbol plus generated indices 1..length-1), the synthesized
conditioning tensor is all-zero, and the conditioning frame fed to the
stack at every timestep is the all-zero frame. -/
theorem C6_unconditional (E : Externals) (w : Wavenet) (a : InferArgs)
    (rnd : ℕ → ℤ)
    (hcond : w.use_conditioning = true) (hcc : w.use_cond_conv = false)
    (hsame : w.same_cond_each_resblock = true)
    (hcf : a.cond_features = none) (hb : 1 ≤ a.batch_size)
    (hch : 1 ≤ a.cond_channels) (hl : 1 ≤ a.length)
    (hr : a.randomize_input = false)
    (hdil : ∀ c ∈ w.dilate_layers, DilOK c)
    (hskipn : w.use_skip_out = true → 1 ≤ w.n_layers) :
    ∃ st, inferenceRun E w a rnd = .ok st ∧
      st.len = a.length ∧
      st.output_audio.length = a.length + 1 ∧
      st.cond = some (List.replicate a.length (zeroFrame a.cond_channels)) ∧
      (∀ f ∈ List.replicate a.length (zeroFrame a.cond_channels),
        ∀ q ∈ f, q = 0) ∧
      (∀ s, s < a.length →
        condSampleAt w (some (List.replicate a.length (zeroFrame a.cond_channels))) s =
          .ok (some (zeroFrame a.cond_channels))) := by
  have hinit : inferenceInit w a =
      .ok (a.length, some (List.replicate a.length (zeroFrame a.cond_channels))) := by
    unfold inferenceInit
    simp [hcond, hcf, hcc]
    rw [if_pos (by omega : 0 < a.length),
      if_pos (⟨by omega, by omega⟩ : 0 < a.batch_size ∧ 0 < a.cond_channels)]
  unfold inferenceRun
  rw [hinit]
  dsimp only
  obtain ⟨st, hfold, hlen2, hcond3, haud2⟩ := inference_loop_ok E a
    (a.teacher_audio.getD []) rnd
    { net := w
      len := a.length
      cond := some (List.replicate a.length (zeroFrame a.cond_channels))
      logits := List.replicate a.length (zeroFrame w.n_out_channels)
      output_audio := List.replicate (a.length + 1) (E.mu_law_encode 0)
      inputs_fed := [] }
    hr hcond hcc hsame (List.replicate a.length (zeroFrame a.cond_channels)) rfl
    hskipn hdil (a.length - 1) (by simp)
  refine ⟨st, hfold, hlen2, by simpa using haud2, hcond3, ?_, ?_⟩
  · intro f hf q hq
    rw [List.eq_of_mem_replicate hf] at hq
    exact List.eq_of_mem_replicate hq
  · intro s hs
    unfold condSampleAt
    simp [hcond, hcc, hsame, List.getElem?_replicate, hs]

/-- C6 witness: the amended unconditional generation evaluated on the
conditioning-enabled zero-block net with batch_size 2, one conditioning
channel and length 100. -/
theorem C6_witness :
    (wCond.use_conditioning = true ∧ args6ok.cond_features = none ∧
      1 ≤ args6ok.batch_size ∧ 1 ≤ args6ok.cond_channels ∧
      1 ≤ args6ok.length) ∧
    ∃ st, inferenceRun EId wCond args6ok rndZero = .ok st ∧
      st.len = args6ok.length ∧
      st.output_audio.length = args6ok.length + 1 ∧
      st.cond = some (List.replicate args6ok.length (zeroFrame args6ok.cond_channels)) ∧
      (∀ f ∈ List.replicate args6ok.length (zeroFrame args6ok.cond_channels),
        ∀ q ∈ f, q = 0) ∧
      (∀ s, s < args6ok.length →
        condSampleAt wCond
            (some (List.replicate args6ok.length (zeroFrame args6ok.cond_channels))) s =
          .ok (some (zeroFrame args6ok.cond_channels))) :=
  ⟨⟨rfl, rfl, by decide, by decide, by decide⟩,
    C6_unconditional EId wCond args6ok rndZero rfl rfl rfl rfl (by decide)
      (by decide) (by decide) rfl (by intro c hc; cases hc)
      (by intro h; cases h)⟩

end WavenetModel
